import Mathlib

/-!
# helm-mapkubeapis: `pkg/common/common.go`

A shallow embedding of `ReplaceManifestUnSupportedAPIs` and
`getKubernetesServerVersion`, together with the parts of the Go standard
library they call (`strings.ReplaceAll`, `strconv.ParseFloat` with bit size
32), followed by theorems about the rewriting of a release manifest.

Go strings are byte sequences; they are embedded as `List UInt8`.
The calls to `log.Printf` write to the process logger and do not take part
in the returned values; they are left out of the embedding.
-/

set_option autoImplicit false
set_option maxRecDepth 100000
set_option linter.unusedVariables false

/-- A Go `string`: an immutable sequence of bytes. -/
abbrev GoString := List UInt8

/-- The bytes (UTF-8) of a string literal, to write Go string constants. -/
def str (s : String) : GoString := s.toUTF8.data.toList

/-! ## `unicode/utf8` -/

namespace utf8

/-- The size information of table `first`: 1 for an ASCII byte, 0 for an
invalid leading byte (`xx`), otherwise the length of the encoding. -/
def firstSize (s0 : UInt8) : Nat :=
  if s0 < 0x80 then 1
  else if s0 < 0xC2 then 0
  else if s0 < 0xE0 then 2
  else if s0 < 0xF0 then 3
  else if s0 < 0xF5 then 4
  else 0

/-- The table `acceptRanges`, indexed by the leading byte: the range the
second byte has to be in. -/
def acceptRange (s0 : UInt8) : UInt8 × UInt8 :=
  if s0 = 0xE0 then (0xA0, 0xBF)
  else if s0 = 0xED then (0x80, 0x9F)
  else if s0 = 0xF0 then (0x90, 0xBF)
  else if s0 = 0xF4 then (0x80, 0x8F)
  else (0x80, 0xBF)

/-- The width returned by `utf8.DecodeRuneInString`: the number of bytes of
the first rune of `s`, 1 for an invalid encoding, 0 for the empty string. -/
def DecodeRuneInStringWidth (s : GoString) : Nat :=
  match s with
  | [] => 0
  | s0 :: rest =>
    let sz := firstSize s0
    if sz ≤ 1 then 1
    else if s.length < sz then 1
    else
      match rest with
      | [] => 1
      | s1 :: rest2 =>
        if s1 < (acceptRange s0).1 ∨ (acceptRange s0).2 < s1 then 1
        else if sz ≤ 2 then 2
        else
          match rest2 with
          | [] => 1
          | s2 :: rest3 =>
            if s2 < 0x80 ∨ 0xBF < s2 then 1
            else if sz ≤ 3 then 3
            else
              match rest3 with
              | [] => 1
              | s3 :: _ => if s3 < 0x80 ∨ 0xBF < s3 then 1 else 4

/-- The loop of `utf8.RuneCountInString`, one rune per iteration; `fuel`
bounds the number of iterations. -/
def runeCountLoop : Nat → GoString → Nat
  | 0, _ => 0
  | _, [] => 0
  | fuel + 1, c :: t =>
    1 + runeCountLoop fuel ((c :: t).drop (DecodeRuneInStringWidth (c :: t)))

/-- The Go function `utf8.RuneCountInString`: the number of runes in `s`,
an invalid byte counting as one rune. Every iteration consumes at least one
byte, so `s.length` iterations are enough (see `runeCountLoop_fuel`). -/
def RuneCountInString (s : GoString) : Nat := runeCountLoop s.length s

end utf8

/-! ## `strings` -/

namespace strings

/-- The Go function `strings.Index`: the index of the first instance of
`substr` in `s`; `none` stands for the result `-1`. -/
def Index : GoString → GoString → Option Nat
  | [], substr => if substr = [] then some 0 else none
  | c :: t, substr =>
    if substr.isPrefixOf (c :: t) then some 0 else (Index t substr).map (· + 1)

/-- The loop of `strings.Count` for a non-empty `substr`: find the next
instance, count it, continue behind it. `fuel` bounds the iterations. -/
def countLoop (substr : GoString) : Nat → GoString → Nat
  | 0, _ => 0
  | fuel + 1, s =>
    match Index s substr with
    | none => 0
    | some i => 1 + countLoop substr fuel (s.drop (i + substr.length))

/-- The Go function `strings.Count`: the number of non-overlapping instances
of `substr` in `s`; for an empty `substr`, one more than the number of runes.
The shortcut of the source for a `substr` of one byte counts the same
instances and is not set apart. Every iteration for a non-empty `substr`
consumes at least one byte, so `s.length + 1` iterations are enough (see
`countLoop_fuel`). -/
def Count (s substr : GoString) : Nat :=
  if substr.length = 0 then utf8.RuneCountInString s + 1
  else countLoop substr (s.length + 1) s

/-- The replacement loop of `strings.Replace`, `for i := 0; i < n; i++`.
`rest` is `s[start:]`, `first` says whether `i = 0`; the result is what the
iterations from here on write to the builder, the final `s[start:]`
included. -/
def replaceLoop (old new : GoString) : Nat → Bool → GoString → GoString
  | 0, _, rest => rest
  | n + 1, first, rest =>
    let j :=
      if old.length = 0 then
        (if first then 0 else utf8.DecodeRuneInStringWidth rest)
      else (Index rest old).getD 0
    rest.take j ++ new ++ replaceLoop old new n false (rest.drop (j + old.length))

/-- The Go function `strings.Replace`: `s` with the first `n`
non-overlapping instances of `old` replaced by `new`, all of them when
`n < 0`. -/
def Replace (s old new : GoString) (n : Int) : GoString :=
  if old = new ∨ n = 0 then s
  else
    let m := Count s old
    if m = 0 then s
    else
      let n := if n < 0 ∨ (m : Int) < n then m else n.toNat
      replaceLoop old new n true s

/-- The Go function `strings.ReplaceAll`, which is `Replace(s, old, new, -1)`. -/
def ReplaceAll (s old new : GoString) : GoString := Replace s old new (-1)

end strings

/-! ## `strconv` -/

namespace strconv

/-- The value of a `float64` holding the result of `ParseFloat(s, 32)`, which
is a float32 value. A finite float32 is a whole multiple of `2^-149`, the
smallest positive float32: `fin k` is the number `k * 2^-149`. The two zeros
of IEEE 754 compare equal and are both `fin 0`. -/
inductive GoFloat where
  | NaN
  | Inf (neg : Bool)
  | fin (k : Int)
  deriving DecidableEq, Repr

/-- The Go comparison `a > b` on `float64`: false when an operand is NaN. -/
def GoFloat.gt : GoFloat → GoFloat → Bool
  | .NaN, _ => false
  | _, .NaN => false
  | .Inf neg, .Inf neg2 => !neg && neg2
  | .Inf neg, .fin _ => !neg
  | .fin _, .Inf neg => neg
  | .fin a, .fin b => decide (b < a)

/-- The error kinds of `strconv.NumError` that `ParseFloat` returns. -/
inductive NumError where
  | ErrSyntax
  | ErrRange
  deriving DecidableEq, Repr

/-- The Go function `lower` of `strconv`: `c | ('x' - 'X')`. -/
def lower (c : UInt8) : UInt8 := c ||| 0x20

/-- Whether `c` is one of `'0'` to `'9'`. -/
def isDigit (c : UInt8) : Bool := decide (0x30 ≤ c ∧ c ≤ 0x39)

/-- Whether `lower(c)` is one of `'a'` to `'f'`. -/
def isHexLetter (c : UInt8) : Bool := decide (0x61 ≤ lower c ∧ lower c ≤ 0x66)

/-- The result of matching `s`, ignoring case, against the whole of a
lower-case word. -/
def equalIgnoreCase : GoString → GoString → Bool
  | [], [] => true
  | c :: s, d :: t => (lower c == d) && equalIgnoreCase s t
  | _, _ => false

/-- The strings `special` accepts as a whole: `nan`, and `inf` or `infinity`
with an optional sign, in any letter case. -/
def special (s : GoString) : Option GoFloat :=
  let isInf := fun (t : GoString) =>
    equalIgnoreCase t (str "inf") || equalIgnoreCase t (str "infinity")
  match s with
  | [] => none
  | c :: t =>
    if c = 0x2B then (if isInf t then some (.Inf false) else none)
    else if c = 0x2D then (if isInf t then some (.Inf true) else none)
    else if isInf (c :: t) then some (.Inf false)
    else if equalIgnoreCase (c :: t) (str "nan") then some .NaN
    else none

/-- What the digit loop of `readFloat` has seen so far. `mantissa` holds all
the digits read (Go keeps 19 of them and reads the rest again from the string
when they matter), `nfrac` counts the digits behind the point. -/
structure Digits where
  mantissa : Nat
  nfrac : Nat
  sawdot : Bool
  sawdigits : Bool
  underscores : Bool
  deriving DecidableEq, Repr

/-- The digit loop of `readFloat`: underscores, one point, digits in the
given base; it stops at the first other byte and returns what is left. -/
def readDigits (hex : Bool) : GoString → Digits → Digits × GoString
  | [], st => (st, [])
  | c :: t, st =>
    if c = 0x5F then readDigits hex t { st with underscores := true }
    else if c = 0x2E then
      if st.sawdot then (st, c :: t) else readDigits hex t { st with sawdot := true }
    else if isDigit c then
      readDigits hex t
        { st with
          sawdigits := true
          mantissa := st.mantissa * (if hex then 16 else 10) + (c - 0x30).toNat
          nfrac := if st.sawdot then st.nfrac + 1 else st.nfrac }
    else if hex && isHexLetter c then
      readDigits hex t
        { st with
          sawdigits := true
          mantissa := st.mantissa * 16 + ((lower c - 0x61).toNat + 10)
          nfrac := if st.sawdot then st.nfrac + 1 else st.nfrac }
    else (st, c :: t)

/-- The loop over the digits of the exponent in `readFloat`: the value read
(Go stops adding digits from 10000 on, far out of the range of a float32),
whether an underscore was seen, and what is left. -/
def readExpDigits : GoString → Nat → Bool → Nat × Bool × GoString
  | [], e, u => (e, u, [])
  | c :: t, e, u =>
    if c = 0x5F then readExpDigits t e true
    else if isDigit c then readExpDigits t (e * 10 + (c - 0x30).toNat) u
    else (e, u, c :: t)

/-- The state `saw` of `underscoreOK`. -/
inductive Saw where
  | start
  | digit
  | underscore
  | other
  deriving DecidableEq, Repr

/-- The loop of `underscoreOK` over the number proper. -/
def underscoreLoop (hex : Bool) : GoString → Saw → Bool
  | [], saw => decide (saw ≠ .underscore)
  | c :: t, saw =>
    if isDigit c || (hex && isHexLetter c) then underscoreLoop hex t .digit
    else if c = 0x5F then
      if saw ≠ .digit then false else underscoreLoop hex t .underscore
    else if saw = .underscore then false
    else underscoreLoop hex t .other

/-- The Go function `underscoreOK`: underscores only between digits, or
between a base prefix and a digit. -/
def underscoreOK (s : GoString) : Bool :=
  let s := match s with
    | c :: t => if c = 0x2D ∨ c = 0x2B then t else c :: t
    | [] => []
  match s with
  | c0 :: c1 :: t =>
    if c0 = 0x30 ∧ (lower c1 = 0x62 ∨ lower c1 = 0x6F ∨ lower c1 = 0x78) then
      underscoreLoop (lower c1 == 0x78) t .digit
    else underscoreLoop false s .start
  | _ => underscoreLoop false s .start

/-- The number a well-formed literal denotes, before rounding: sign, and a
fraction `num / den` of naturals. -/
structure Exact where
  neg : Bool
  num : Nat
  den : Nat
  deriving DecidableEq, Repr

/-- The Go function `readFloat` applied to a whole string: `none` when `s`
is not, as a whole, a decimal or hexadecimal floating-point literal. -/
def readFloat (s : GoString) : Option Exact :=
  let (neg, s1) := match s with
    | c :: t => if c = 0x2B then (false, t) else if c = 0x2D then (true, t) else (false, c :: t)
    | [] => (false, [])
  if s = [] then none
  else
    let (hex, s2) := match s1 with
      | c0 :: c1 :: c2 :: t =>
        if c0 = 0x30 ∧ lower c1 = 0x78 then (true, c2 :: t) else (false, s1)
      | _ => (false, s1)
    let (d, s3) := readDigits hex s2 ⟨0, 0, false, false, false⟩
    if !d.sawdigits then none
    else
      let expChar : UInt8 := if hex then 0x70 else 0x65
      let fracDen : Nat := (if hex then 16 else 10) ^ d.nfrac
      let expBase : Nat := if hex then 2 else 10
      match s3 with
      | c :: s4 =>
        if lower c = expChar then
          let (eneg, s5) := match s4 with
            | c2 :: t => if c2 = 0x2B then (false, t) else if c2 = 0x2D then (true, t) else (false, c2 :: t)
            | [] => (false, [])
          match s5 with
          | [] => none
          | c3 :: _ =>
            if !isDigit c3 then none
            else
              let (e, u, s6) := readExpDigits s5 0 false
              if s6 ≠ [] then none
              else if (d.underscores || u) && !underscoreOK s then none
              else if eneg then some ⟨neg, d.mantissa, fracDen * expBase ^ e⟩
              else some ⟨neg, d.mantissa * expBase ^ e, fracDen⟩
        else none
      | [] =>
        if hex then none
        else if d.underscores && !underscoreOK s then none
        else some ⟨neg, d.mantissa, fracDen⟩

/-- Round-half-to-even of the fraction `a / b` to a natural number. -/
def roundHalfEven (a b : Nat) : Nat :=
  let q := a / b
  let r := a % b
  if 2 * r < b then q
  else if b < 2 * r then q + 1
  else if q % 2 = 0 then q else q + 1

/-- The number of low bits a float32 cannot keep of a number whose integer
part, in units of `2^-149`, is `q`: the halvings that bring `q` below `2^24`.
Numbers from `2^128` on overflow whatever their rounding, so 254 halvings are
the most that is asked for. -/
def dropBits : Nat → Nat → Nat
  | 0, _ => 0
  | fuel + 1, q => if q < 2 ^ 24 then 0 else dropBits fuel (q / 2) + 1

/-- The nearest float32 to `num / den` (IEEE 754 round to nearest, ties to
even), in units of `2^-149`; `none` on overflow, which is a rounded value of
`2^128` or more. -/
def roundFloat32 (num den : Nat) : Option Nat :=
  let x := num * 2 ^ 149
  let q := x / den
  if 2 ^ 128 * 2 ^ 149 ≤ q then none
  else
    let s := dropBits 254 q
    let k := roundHalfEven x (den * 2 ^ s) * 2 ^ s
    if 2 ^ 128 * 2 ^ 149 ≤ k then none else some k

/-- The Go call `strconv.ParseFloat(s, 32)`: the value and the error. A
string that is not well-formed gives `0` and `ErrSyntax`; a well-formed one
gives the nearest float32, or an infinity and `ErrRange` when that is out of
range. -/
def ParseFloat32 (s : GoString) : GoFloat × Option NumError :=
  match special s with
  | some v => (v, none)
  | none =>
    match readFloat s with
    | none => (.fin 0, some .ErrSyntax)
    | some x =>
      match roundFloat32 x.num x.den with
      | none => (.Inf x.neg, some .ErrRange)
      | some k => (.fin (if x.neg then -(k : Int) else k), none)

end strconv

/-! ## `pkg/common/common.go` -/

/-- A Go `error` value, as far as this file builds one: an error handed over
by a collaborator, a new error (`errors.Errorf`), or an error wrapped with a
message (`errors.Wrap`, `errors.Wrapf`). -/
inductive Error where
  | external (msg : GoString)
  | errorf (msg : GoString)
  | wrap (cause : Error) (msg : GoString)
  deriving DecidableEq, Repr

namespace mapping

/-- Modelled from the spec: the struct `mapping.Mapping` of `pkg/mapping`,
which is not part of the sources at hand; one catalog entry, with the four
string fields `ReplaceManifestUnSupportedAPIs` reads. -/
structure Mapping where
  DeprecatedAPI : GoString
  NewAPI : GoString
  DeprecatedInVersion : GoString
  RemovedInVersion : GoString
  deriving DecidableEq, Repr

/-- Modelled from the spec: the struct `mapping.Metadata` of `pkg/mapping`,
the loaded catalog: the mapping entries in the order of the file. -/
structure Metadata where
  Mappings : List Mapping
  deriving DecidableEq, Repr

end mapping

/-- The Go struct `KubeConfig`: the Kubernetes configuration settings. -/
structure KubeConfig where
  Context : GoString
  File : GoString
  deriving DecidableEq, Repr

/-- The fields `Major` and `Minor` of the `version.Info` a cluster answers
with. -/
structure VersionInfo where
  Major : GoString
  Minor : GoString
  deriving DecidableEq, Repr

/-- A client set, as far as it is used: the outcome of its method
`ServerVersion()`. -/
structure ClientSet where
  ServerVersion : Except Error VersionInfo

/-- The collaborators outside this package: `mapping.LoadMapfile`, which
reads the catalog from a file name, and `utils.GetClientSetWithKubeConfig`,
which takes the kube config file and context and returns `nil` (`none`) when
no client set can be made. -/
structure Collaborators where
  LoadMapfile : GoString → Except Error mapping.Metadata
  GetClientSetWithKubeConfig : GoString → GoString → Option ClientSet

/-- The Go function `getKubernetesServerVersion`: the string
`"<major>.<minor>"` of the cluster, or an error. -/
def getKubernetesServerVersion (env : Collaborators) (kubeConfig : KubeConfig) :
    GoString × Option Error :=
  match env.GetClientSetWithKubeConfig kubeConfig.File kubeConfig.Context with
  | none => ([], some (.errorf (str "kubernetes cluster unreachable")))
  | some clientSet =>
    match clientSet.ServerVersion with
    | .error err => ([], some (.wrap err (str "kubernetes cluster unreachable")))
    | .ok kubeVersion => (kubeVersion.Major ++ str "." ++ kubeVersion.Minor, none)

/-- The choice of `apiVersionStr` in the loop of
`ReplaceManifestUnSupportedAPIs`: `DeprecatedInVersion` unless it is empty,
else `RemovedInVersion`. -/
def apiVersionStr (mapping : mapping.Mapping) : GoString :=
  if mapping.DeprecatedInVersion ≠ [] then mapping.DeprecatedInVersion
  else mapping.RemovedInVersion

/-- One iteration of the loop of `ReplaceManifestUnSupportedAPIs` over the
mappings: from the manifest so far to the manifest after this mapping. The
error of `ParseFloat` is dropped, as in the source, where the result of
`errors.Wrapf` is not used. -/
def mapOne (kubeVersion : strconv.GoFloat) (modifiedManifest : GoString)
    (mapping : mapping.Mapping) : GoString :=
  let deprecatedAPI := mapping.DeprecatedAPI
  let supportedAPI := mapping.NewAPI
  let apiVersion := (strconv.ParseFloat32 (apiVersionStr mapping)).1
  let modManifestForAPI := strings.ReplaceAll modifiedManifest deprecatedAPI supportedAPI
  let modified : Bool := decide (modManifestForAPI ≠ modifiedManifest)
  if modified then
    if apiVersion.gt kubeVersion then modifiedManifest
    else modManifestForAPI
  else modifiedManifest

/-- The Go function `ReplaceManifestUnSupportedAPIs`: the release manifest
with deprecated or removed Kubernetes APIs updated to supported APIs, and the
error. The error of parsing the server version is dropped, as in the source,
where the result of `errors.Wrap` is not used. -/
def ReplaceManifestUnSupportedAPIs (env : Collaborators) (origManifest mapFile : GoString)
    (kubeConfig : KubeConfig) : GoString × Option Error :=
  match env.LoadMapfile mapFile with
  | .error err => ([], some (.wrap err (str "Failed to load mapping file: " ++ mapFile)))
  | .ok mapMetadata =>
    match getKubernetesServerVersion env kubeConfig with
    | (_, some err) => ([], some err)
    | (kubeVersionStr, none) =>
      let kubeVersion := (strconv.ParseFloat32 kubeVersionStr).1
      (mapMetadata.Mappings.foldl (mapOne kubeVersion) origManifest, none)

/-! ## Concrete collaborators, for examples -/

/-- Collaborators that load the catalog `cat` from every file and reach a
cluster that reports version `major`.`minor`. -/
def fixedEnv (cat : List mapping.Mapping) (major minor : GoString) : Collaborators where
  LoadMapfile := fun _ => .ok ⟨cat⟩
  GetClientSetWithKubeConfig := fun _ _ => some ⟨.ok ⟨major, minor⟩⟩

/-- An empty kube config. -/
def noConfig : KubeConfig := ⟨[], []⟩

/-- The environment `env` with the catalog `cat` loaded from every file: the
same cluster, another catalog. -/
def withCatalog (env : Collaborators) (cat : List mapping.Mapping) : Collaborators :=
  { env with LoadMapfile := fun _ => .ok ⟨cat⟩ }

/-! ## Notions used to state the properties -/

namespace strconv

/-- The Go comparison `a < b` on `float64`: false when an operand is NaN. -/
def GoFloat.lt : GoFloat → GoFloat → Bool
  | .NaN, _ => false
  | _, .NaN => false
  | .Inf neg, .Inf neg2 => neg && !neg2
  | .Inf neg, .fin _ => neg
  | .fin _, .Inf neg => !neg
  | .fin a, .fin b => decide (a < b)

/-- The Go comparison `a <= b` on `float64`: false when an operand is NaN. -/
def GoFloat.le : GoFloat → GoFloat → Bool
  | .NaN, _ => false
  | _, .NaN => false
  | .Inf neg, .Inf neg2 => neg || !neg2
  | .Inf neg, .fin _ => neg
  | .fin _, .Inf neg => !neg
  | .fin a, .fin b => decide (a ≤ b)

/-- The number a literal denotes, as a rational number: its decimal value. -/
def Exact.value (x : Exact) : ℚ :=
  if x.neg then -((x.num : ℚ) / (x.den : ℚ)) else (x.num : ℚ) / (x.den : ℚ)

/-- The float32 nearest to the number a literal denotes, an infinity when it
is out of range: what `ParseFloat32` returns for the literal. -/
def Exact.toFloat32 (x : Exact) : GoFloat :=
  match roundFloat32 x.num x.den with
  | none => .Inf x.neg
  | some k => .fin (if x.neg then -(k : Int) else k)

end strconv

/-- The test `apiVersion > kubeVersion` of the loop for entry `e` on a cluster
whose version string is `v`: the entry is not valid yet on that cluster. -/
def notYetValid (v : GoString) (e : mapping.Mapping) : Bool :=
  (strconv.ParseFloat32 (apiVersionStr e)).1.gt (strconv.ParseFloat32 v).1

/-- The pieces of a text split at the instances of `d` taken leftmost first
and without overlap: `LeftmostSplit d s ps` says that `s` is the pieces `ps`
with one `d` between neighbours, that before each of these instances of `d`
no instance of `d` starts in what is left of the text, and that the last piece
holds no instance of `d`. -/
inductive LeftmostSplit (d : GoString) : GoString → List GoString → Prop where
  | last (p : GoString) : ¬ d <:+: p → LeftmostSplit d p [p]
  | cons (p rest : GoString) (ps : List GoString) :
      (∀ i, i < p.length → ¬ d <+: (p ++ d ++ rest).drop i) →
      LeftmostSplit d rest ps → LeftmostSplit d (p ++ d ++ rest) (p :: ps)

/-- A change of a text that touches it only at ranges equal to the
`DeprecatedAPI` of an entry of `cat`, each replaced by the `NewAPI` of that
same entry: `LocalEdit cat s out` is built by keeping a byte (`keep`) or by
replacing, at the front, the `DeprecatedAPI` of an entry by its `NewAPI`
(`subst`). -/
inductive LocalEdit (cat : List mapping.Mapping) : GoString → GoString → Prop where
  | done : LocalEdit cat [] []
  | keep (c : UInt8) (s out : GoString) : LocalEdit cat s out → LocalEdit cat (c :: s) (c :: out)
  | subst (e : mapping.Mapping) (s out : GoString) : e ∈ cat → LocalEdit cat s out →
      LocalEdit cat (e.DeprecatedAPI ++ s) (e.NewAPI ++ out)

/-- A chain of local edits, one for each entry of the catalog in its order:
each step changes the text left by the step before it only at ranges equal to
the `DeprecatedAPI` of its own entry. -/
inductive EditChain : List mapping.Mapping → GoString → GoString → Prop where
  | nil (s : GoString) : EditChain [] s s
  | cons (e : mapping.Mapping) (cat : List mapping.Mapping) (s mid out : GoString) :
      LocalEdit [e] s mid → EditChain cat mid out → EditChain (e :: cat) s out

/-- Two strings overlap when an instance of one and an instance of the other
can share a byte of a text: a non-empty end of one is a beginning of the
other, or one has an instance in the other. An empty string overlaps every
string. -/
def Overlap (d n : GoString) : Prop :=
  (∃ s ∈ d.tails, s ≠ [] ∧ s <+: n) ∨ (∃ s ∈ n.tails, s ≠ [] ∧ s <+: d) ∨ d <:+: n ∨ n <:+: d

instance (d n : GoString) : Decidable (Overlap d n) := by
  unfold Overlap
  infer_instance

/-- The reading of the loop without the test `modified`: the entries that
are not valid yet on the cluster are dropped from the catalog, and all others
are substituted one after the other, in the order of the catalog, each in the
manifest left by the one before it. -/
def foldValidEntries (v : GoString) (cat : List mapping.Mapping) (m : GoString) : GoString :=
  (cat.filter (fun e => !notYetValid v e)).foldl
    (fun current e => strings.ReplaceAll current e.DeprecatedAPI e.NewAPI) m

/-! ## The fuel of the loops, and values of `ParseFloat` -/

namespace utf8

/-- A non-empty string starts with a rune of at least one byte. -/
theorem DecodeRuneInStringWidth_pos (c : UInt8) (t : GoString) :
    0 < DecodeRuneInStringWidth (c :: t) := by
  unfold DecodeRuneInStringWidth
  simp only
  repeat' split
  all_goals omega

/-- More iterations than the string has bytes do not change the count of
`runeCountLoop`: the loop of `RuneCountInString` ends within its fuel. -/
theorem runeCountLoop_fuel : ∀ (f f2 : Nat) (s : GoString),
    s.length ≤ f → s.length ≤ f2 → runeCountLoop f s = runeCountLoop f2 s
  | _, _, [], _, _ => by
    rename_i f f2
    cases f <;> cases f2 <;> rfl
  | 0, _, c :: t, h, _ => by simp at h
  | _ + 1, 0, c :: t, _, h => by simp at h
  | f + 1, f2 + 1, c :: t, h, h2 => by
    have hw := DecodeRuneInStringWidth_pos c t
    have hlen : ((c :: t).drop (DecodeRuneInStringWidth (c :: t))).length ≤ t.length := by
      rw [List.length_drop]
      simp only [List.length_cons]
      omega
    simp only [List.length_cons] at h h2
    show 1 + runeCountLoop f _ = 1 + runeCountLoop f2 _
    rw [runeCountLoop_fuel f f2 _ (by omega) (by omega)]

end utf8

namespace strconv

/-- The halvings counted by `dropBits` bring the number below `2^24` whenever
the fuel covers its size, as the 254 of `roundFloat32` do for every number
below `2^278`. -/
theorem dropBits_lt : ∀ (fuel q : Nat), q < 2 ^ (24 + fuel) →
    q / 2 ^ dropBits fuel q < 2 ^ 24
  | 0, q, h => by simpa [dropBits] using h
  | fuel + 1, q, h => by
    unfold dropBits
    split
    · simpa using ‹q < 2 ^ 24›
    · have h2 : q / 2 < 2 ^ (24 + fuel) := by
        rw [Nat.div_lt_iff_lt_mul (by norm_num)]
        calc q < 2 ^ (24 + (fuel + 1)) := h
          _ = 2 ^ (24 + fuel) * 2 := by rw [← Nat.add_assoc, Nat.pow_succ]
      have ih := dropBits_lt fuel (q / 2) h2
      rw [Nat.pow_succ, Nat.mul_comm, ← Nat.div_div_eq_div_mul]
      exact ih

/-- Values of `ParseFloat(s, 32)`: whole and fractional numbers, the smallest
and the largest float32, a tie rounded to even, overflow, underscores, a
hexadecimal literal, the special values and syntax errors. -/
theorem ParseFloat32_values :
    ParseFloat32 (str "1") = (.fin (2 ^ 149), none) ∧
    ParseFloat32 (str "0.5") = (.fin (2 ^ 148), none) ∧
    ParseFloat32 (str "-2.5e1") = (.fin (-(25 * 2 ^ 149)), none) ∧
    ParseFloat32 (str "1e-45") = (.fin 1, none) ∧
    ParseFloat32 (str "1e-46") = (.fin 0, none) ∧
    ParseFloat32 (str "16777217") = (.fin (16777216 * 2 ^ 149), none) ∧
    ParseFloat32 (str "16777219") = (.fin (16777220 * 2 ^ 149), none) ∧
    ParseFloat32 (str "1.00000001") = ParseFloat32 (str "1") ∧
    ParseFloat32 (str "3.4028235e38") = (.fin ((2 ^ 24 - 1) * 2 ^ 253), none) ∧
    ParseFloat32 (str "3.4028236e38") = (.Inf false, some .ErrRange) ∧
    ParseFloat32 (str "-1e39") = (.Inf true, some .ErrRange) ∧
    ParseFloat32 (str "1_0.5") = (.fin (21 * 2 ^ 148), none) ∧
    ParseFloat32 (str "0x1.8p1") = (.fin (3 * 2 ^ 149), none) ∧
    ParseFloat32 (str "+Inf") = (.Inf false, none) ∧
    ParseFloat32 (str "NaN") = (.NaN, none) ∧
    ParseFloat32 (str "") = (.fin 0, some .ErrSyntax) ∧
    ParseFloat32 (str "1.") = (.fin (2 ^ 149), none) ∧
    ParseFloat32 (str ".") = (.fin 0, some .ErrSyntax) ∧
    ParseFloat32 (str "1e") = (.fin 0, some .ErrSyntax) ∧
    ParseFloat32 (str "1_") = (.fin 0, some .ErrSyntax) ∧
    ParseFloat32 (str "0x1") = (.fin 0, some .ErrSyntax) ∧
    ParseFloat32 (str "v1.22") = (.fin 0, some .ErrSyntax) ∧
    ParseFloat32 (str "1.22.3") = (.fin 0, some .ErrSyntax) := by
  and_intros
  all_goals decide

/-! ### Rounding keeps the order -/

theorem roundHalfEven_ge (a b : Nat) : a / b ≤ roundHalfEven a b := by
  unfold roundHalfEven
  simp only
  repeat' split
  all_goals omega

theorem roundHalfEven_le (a b : Nat) : roundHalfEven a b ≤ a / b + 1 := by
  unfold roundHalfEven
  simp only
  repeat' split
  all_goals omega

/-- Rounding to the nearest integer keeps the order of fractions. -/
theorem roundHalfEven_mono {a b c d : Nat} (hb : 0 < b) (hd : 0 < d) (h : a * d ≤ c * b) :
    roundHalfEven a b ≤ roundHalfEven c d := by
  have ha := Nat.div_add_mod a b
  have hc := Nat.div_add_mod c d
  have hra := Nat.mod_lt a hb
  have hrc := Nat.mod_lt c hd
  generalize a / b = q1 at *
  generalize a % b = r1 at *
  generalize c / d = q2 at *
  generalize c % d = r2 at *
  subst ha
  subst hc
  -- floor is monotone
  have hq : q1 ≤ q2 := by
    by_contra hlt
    push_neg at hlt
    have h1 : (q2 + 1) * (b * d) ≤ q1 * (b * d) := Nat.mul_le_mul_right _ hlt
    have h2 : r2 * b < d * b := Nat.mul_lt_mul_of_pos_right hrc hb
    nlinarith
  unfold roundHalfEven
  simp only [Nat.mul_add_div hb, Nat.mul_add_div hd, Nat.div_eq_of_lt hra, Nat.div_eq_of_lt hrc,
    Nat.mul_add_mod, Nat.mod_eq_of_lt hra, Nat.mod_eq_of_lt hrc, Nat.add_zero]
  rcases Nat.lt_or_ge q1 q2 with hlt | hge
  · repeat' split
    all_goals omega
  · have hqq : q1 = q2 := Nat.le_antisymm hq hge
    subst hqq
    have hr : r1 * d ≤ r2 * b := by nlinarith
    by_cases t1 : 2 * r1 < b
    · simp only [t1, if_true]
      repeat' split
      all_goals omega
    · by_cases t2 : 2 * r2 < d
      · exfalso
        have : 2 * r2 * b < d * b := Nat.mul_lt_mul_of_pos_right t2 hb
        have : b * d ≤ 2 * r1 * d := Nat.mul_le_mul_right _ (by omega)
        nlinarith
      · by_cases t3 : d < 2 * r2
        · simp only [t2, t3, if_true, if_false]
          repeat' split
          all_goals omega
        · have hd2 : d = 2 * r2 := by omega
          by_cases t4 : b < 2 * r1
          · exfalso
            have : b * d < 2 * r1 * d := Nat.mul_lt_mul_of_pos_right t4 hd
            have : 2 * r2 * b = d * b := by rw [hd2]
            nlinarith
          · simp only [t1, t2, t3, t4, if_false]
            split <;> omega

theorem dropBits_mono : ∀ (fuel q1 q2 : Nat), q1 ≤ q2 → dropBits fuel q1 ≤ dropBits fuel q2
  | 0, _, _, _ => Nat.le_refl _
  | fuel + 1, q1, q2, h => by
    unfold dropBits
    by_cases h1 : q1 < 2 ^ 24
    · rw [if_pos h1]
      exact Nat.zero_le _
    · have h2 : ¬ q2 < 2 ^ 24 := by omega
      rw [if_neg h1, if_neg h2]
      exact Nat.succ_le_succ (dropBits_mono fuel _ _ (Nat.div_le_div_right h))

theorem dropBits_ge : ∀ (fuel q : Nat), 0 < dropBits fuel q →
    2 ^ 23 ≤ q / 2 ^ dropBits fuel q
  | 0, q, h => by simp [dropBits] at h
  | fuel + 1, q, h => by
    unfold dropBits at h ⊢
    by_cases h1 : q < 2 ^ 24
    · rw [if_pos h1] at h
      exact absurd h (Nat.lt_irrefl 0)
    · rw [if_neg h1]
      rw [show 2 ^ (dropBits fuel (q / 2) + 1) = 2 * 2 ^ dropBits fuel (q / 2) from by
        rw [Nat.pow_succ, Nat.mul_comm], ← Nat.div_div_eq_div_mul]
      by_cases h0 : 0 < dropBits fuel (q / 2)
      · exact dropBits_ge fuel (q / 2) h0
      · have : dropBits fuel (q / 2) = 0 := by omega
        rw [this]
        simp only [Nat.pow_zero, Nat.div_one]
        omega

theorem div_le_div_of_cross {a b c d : Nat} (hb : 0 < b) (hd : 0 < d) (h : a * d ≤ c * b) :
    a / b ≤ c / d := by
  rw [Nat.le_div_iff_mul_le hd]
  have h1 : a / b * b ≤ a := Nat.div_mul_le_self a b
  have h2 : a / b * d * b ≤ c * b := by
    calc a / b * d * b = a / b * b * d := by ring
      _ ≤ a * d := Nat.mul_le_mul_right _ h1
      _ ≤ c * b := h
  exact Nat.le_of_mul_le_mul_right h2 hb

/-- Rounding to float32 keeps the order of fractions; an overflow counts as
the largest result. -/
theorem roundFloat32_mono {n1 d1 n2 d2 k2 : Nat} (hd1 : 0 < d1) (hd2 : 0 < d2)
    (h : n1 * d2 ≤ n2 * d1) (h2 : roundFloat32 n2 d2 = some k2) :
    ∃ k1, roundFloat32 n1 d1 = some k1 ∧ k1 ≤ k2 := by
  have hx : n1 * 2 ^ 149 * d2 ≤ n2 * 2 ^ 149 * d1 := by
    calc n1 * 2 ^ 149 * d2 = n1 * d2 * 2 ^ 149 := by ring
      _ ≤ n2 * d1 * 2 ^ 149 := Nat.mul_le_mul_right _ h
      _ = n2 * 2 ^ 149 * d1 := by ring
  have hq : n1 * 2 ^ 149 / d1 ≤ n2 * 2 ^ 149 / d2 := div_le_div_of_cross hd1 hd2 hx
  unfold roundFloat32 at h2 ⊢
  simp only at h2 ⊢
  generalize hx1 : n1 * 2 ^ 149 = x1 at *
  generalize hx2 : n2 * 2 ^ 149 = x2 at *
  generalize hT : 2 ^ 128 * 2 ^ 149 = T at *
  have hpow : ∀ a b c : Nat, a + b < c → 2 ^ a * 2 ^ b < 2 ^ c := by
    intro a b c habc
    rw [← Nat.pow_add]
    exact Nat.pow_lt_pow_right (by omega) habc
  have hT2 : T < 2 ^ (24 + 254) := by
    rw [← hT]
    exact hpow 128 149 (24 + 254) (by omega)
  by_cases hq2 : T ≤ x2 / d2
  · simp [hq2] at h2
  · rw [if_neg hq2] at h2
    by_cases hk2 : T ≤ roundHalfEven x2 (d2 * 2 ^ dropBits 254 (x2 / d2)) * 2 ^ dropBits 254 (x2 / d2)
    · simp [hk2] at h2
    · rw [if_neg hk2] at h2
      have hk2eq : roundHalfEven x2 (d2 * 2 ^ dropBits 254 (x2 / d2)) * 2 ^ dropBits 254 (x2 / d2)
          = k2 := by simpa using h2
      have hq1 : ¬ T ≤ x1 / d1 := by omega
      rw [if_neg hq1]
      have hs := dropBits_mono 254 _ _ hq
      generalize hs1 : dropBits 254 (x1 / d1) = s1 at *
      generalize hs2 : dropBits 254 (x2 / d2) = s2 at *
      have hp1 : 0 < 2 ^ s1 := Nat.pos_pow_of_pos _ (by norm_num)
      have hp2 : 0 < 2 ^ s2 := Nat.pos_pow_of_pos _ (by norm_num)
      have hle : roundHalfEven x1 (d1 * 2 ^ s1) * 2 ^ s1 ≤ k2 := by
        rw [← hk2eq]
        rcases Nat.lt_or_ge s1 s2 with hlt | hge
        · have h24 : x1 / d1 / 2 ^ s1 < 2 ^ 24 := by
            rw [← hs1]
            exact dropBits_lt 254 _ (by omega)
          rw [Nat.div_div_eq_div_mul] at h24
          have hr1 := roundHalfEven_le x1 (d1 * 2 ^ s1)
          have h23 : 2 ^ 23 ≤ x2 / d2 / 2 ^ s2 := by
            rw [← hs2]
            exact dropBits_ge 254 _ (by omega)
          rw [Nat.div_div_eq_div_mul] at h23
          have hr2 := roundHalfEven_ge x2 (d2 * 2 ^ s2)
          have hpow : 2 ^ s1 * 2 ≤ 2 ^ s2 := by
            rw [← Nat.pow_succ]
            exact Nat.pow_le_pow_right (by norm_num) hlt
          calc roundHalfEven x1 (d1 * 2 ^ s1) * 2 ^ s1
              ≤ 2 ^ 24 * 2 ^ s1 := Nat.mul_le_mul_right _ (by omega)
            _ = 2 ^ 23 * (2 ^ s1 * 2) := by ring
            _ ≤ 2 ^ 23 * 2 ^ s2 := Nat.mul_le_mul_left _ hpow
            _ ≤ roundHalfEven x2 (d2 * 2 ^ s2) * 2 ^ s2 := Nat.mul_le_mul_right _ (by omega)
        · have hss : s1 = s2 := by omega
          subst hss
          refine Nat.mul_le_mul_right _ (roundHalfEven_mono (Nat.mul_pos hd1 hp1)
            (Nat.mul_pos hd2 hp1) ?_)
          calc x1 * (d2 * 2 ^ s1) = x1 * d2 * 2 ^ s1 := by ring
            _ ≤ x2 * d1 * 2 ^ s1 := Nat.mul_le_mul_right _ hx
            _ = x2 * (d1 * 2 ^ s1) := by ring
      have hk1 : ¬ T ≤ roundHalfEven x1 (d1 * 2 ^ s1) * 2 ^ s1 := by omega
      rw [if_neg hk1]
      exact ⟨_, rfl, hle⟩

theorem letter_facts (c : UInt8) (h : lower c = 0x69 ∨ lower c = 0x6E) :
    c ≠ 0x2B ∧ c ≠ 0x2D ∧ c ≠ 0x30 ∧ c ≠ 0x5F ∧ c ≠ 0x2E ∧ isDigit c = false := by
  have key : ∀ n : Fin 256,
      (lower (UInt8.mk (BitVec.ofFin n)) = 0x69 ∨ lower (UInt8.mk (BitVec.ofFin n)) = 0x6E) →
      UInt8.mk (BitVec.ofFin n) ≠ 0x2B ∧ UInt8.mk (BitVec.ofFin n) ≠ 0x2D ∧
      UInt8.mk (BitVec.ofFin n) ≠ 0x30 ∧ UInt8.mk (BitVec.ofFin n) ≠ 0x5F ∧
      UInt8.mk (BitVec.ofFin n) ≠ 0x2E ∧ isDigit (UInt8.mk (BitVec.ofFin n)) = false := by
    decide
  exact key c.toBitVec.toFin h

theorem equalIgnoreCase_head {c d : UInt8} {s t : GoString}
    (h : equalIgnoreCase (c :: s) (d :: t) = true) : lower c = d := by
  simp [equalIgnoreCase] at h
  exact h.1

/-- A string that starts with a letter `i` or `n`, in any case, is not a
floating-point literal; nor is it behind a sign. -/
theorem readFloat_letter (c : UInt8) (t : GoString) (h : lower c = 0x69 ∨ lower c = 0x6E) :
    readFloat (c :: t) = none ∧ readFloat (0x2B :: c :: t) = none ∧
      readFloat (0x2D :: c :: t) = none := by
  obtain ⟨h1, h2, h3, h4, h5, h6⟩ := letter_facts c h
  refine ⟨?_, ?_, ?_⟩
  · cases t with
    | nil => simp [readFloat, readDigits, h1, h2, h3, h4, h5, h6]
    | cons c1 t1 =>
      cases t1 with
      | nil => simp [readFloat, readDigits, h1, h2, h3, h4, h5, h6]
      | cons c2 t2 => simp [readFloat, readDigits, h1, h2, h3, h4, h5, h6]
  · cases t with
    | nil => simp [readFloat, readDigits, h1, h2, h3, h4, h5, h6]
    | cons c1 t1 =>
      cases t1 with
      | nil => simp [readFloat, readDigits, h1, h2, h3, h4, h5, h6]
      | cons c2 t2 => simp [readFloat, readDigits, h1, h2, h3, h4, h5, h6]
  · cases t with
    | nil => simp [readFloat, readDigits, h1, h2, h3, h4, h5, h6]
    | cons c1 t1 =>
      cases t1 with
      | nil => simp [readFloat, readDigits, h1, h2, h3, h4, h5, h6]
      | cons c2 t2 => simp [readFloat, readDigits, h1, h2, h3, h4, h5, h6]

theorem special_head {t : GoString} (w : GoString) (c0 : UInt8) (w0 : GoString)
    (hw : w = c0 :: w0) (h : equalIgnoreCase t w = true) :
    ∃ c t2, t = c :: t2 ∧ lower c = c0 := by
  subst hw
  cases t with
  | nil => simp [equalIgnoreCase] at h
  | cons c t2 => exact ⟨c, t2, rfl, equalIgnoreCase_head h⟩

/-- The special values and the floating-point literals are apart: a string
that `special` accepts is not read by `readFloat`. -/
theorem readFloat_of_special {s : GoString} {v : GoFloat} (h : special s = some v) :
    readFloat s = none := by
  have hinf : str "inf" = 0x69 :: [0x6E, 0x66] := by decide
  have hinfinity : str "infinity" = 0x69 :: [0x6E, 0x66, 0x69, 0x6E, 0x69, 0x74, 0x79] := by
    decide
  have hnan : str "nan" = 0x6E :: [0x61, 0x6E] := by decide
  have isInf_head : ∀ t : GoString,
      (equalIgnoreCase t (str "inf") || equalIgnoreCase t (str "infinity")) = true →
      ∃ c t2, t = c :: t2 ∧ lower c = 0x69 := by
    intro t ht
    rcases Bool.or_eq_true _ _ ▸ ht with h1 | h1
    · exact special_head _ _ _ hinf h1
    · exact special_head _ _ _ hinfinity h1
  unfold special at h
  cases s with
  | nil => simp at h
  | cons c t =>
    simp only at h
    by_cases hp : c = 0x2B
    · rw [if_pos hp] at h
      by_cases hi : (equalIgnoreCase t (str "inf") || equalIgnoreCase t (str "infinity")) = true
      · obtain ⟨c2, t2, rfl, hc2⟩ := isInf_head t hi
        rw [hp]
        exact (readFloat_letter c2 t2 (.inl hc2)).2.1
      · rw [if_neg hi] at h
        exact absurd h (by simp)
    · rw [if_neg hp] at h
      by_cases hm : c = 0x2D
      · rw [if_pos hm] at h
        by_cases hi : (equalIgnoreCase t (str "inf") || equalIgnoreCase t (str "infinity")) = true
        · obtain ⟨c2, t2, rfl, hc2⟩ := isInf_head t hi
          rw [hm]
          exact (readFloat_letter c2 t2 (.inl hc2)).2.2
        · rw [if_neg hi] at h
          exact absurd h (by simp)
      · rw [if_neg hm] at h
        by_cases hi : (equalIgnoreCase (c :: t) (str "inf")
            || equalIgnoreCase (c :: t) (str "infinity")) = true
        · obtain ⟨c2, t2, heq, hc2⟩ := isInf_head (c :: t) hi
          rw [heq]
          exact (readFloat_letter c2 t2 (.inl hc2)).1
        · rw [if_neg hi] at h
          by_cases hn : equalIgnoreCase (c :: t) (str "nan") = true
          · obtain ⟨c2, t2, heq, hc2⟩ := special_head _ _ _ hnan hn
            rw [heq]
            exact (readFloat_letter c2 t2 (.inr hc2)).1
          · rw [if_neg hn] at h
            exact absurd h (by simp)

set_option maxHeartbeats 2000000 in
/-- The denominator of a literal is positive. -/
theorem readFloat_den_pos {s : GoString} {x : Exact} (h : readFloat s = some x) : 0 < x.den := by
  unfold readFloat at h
  split at h
  rename_i neg s1 hsign
  split at h
  · simp at h
  · split at h
    rename_i hex s2 hhex
    split at h
    rename_i d s3 hd
    cases hex
    all_goals simp only [Bool.false_eq_true, ↓reduceIte] at h
    iterate 9
      all_goals try first
        | (simp only [Option.some.injEq] at h
           subst h
           dsimp only
           positivity)
        | split at h
        | exact absurd h (by simp)

theorem roundFloat32_zero {den : Nat} (hden : 0 < den) : roundFloat32 0 den = some 0 := by
  have h1 : dropBits 254 0 = 0 := by simp [dropBits]
  have h2 : roundHalfEven 0 den = 0 := by
    unfold roundHalfEven
    simp [hden]
  simp [roundFloat32, h1, h2]

/-- What `ParseFloat32` returns for a literal is the float32 nearest to the
number the literal denotes. -/
theorem ParseFloat32_of_readFloat {s : GoString} {x : Exact} (h : readFloat s = some x) :
    (ParseFloat32 s).1 = x.toFloat32 := by
  have hs : special s = none := by
    cases hsp : special s with
    | none => rfl
    | some v => rw [readFloat_of_special hsp] at h; exact absurd h (by simp)
  unfold ParseFloat32 Exact.toFloat32
  rw [hs, h]
  simp only
  cases roundFloat32 x.num x.den <;> rfl

theorem roundFloat32_of_num_zero {num den : Nat} (hnum : num = 0) (hden : 0 < den) :
    roundFloat32 num den = some 0 := by
  subst hnum
  exact roundFloat32_zero hden

theorem toFloat32_of_num_zero (x : Exact) (hnum : x.num = 0) (hden : 0 < x.den) :
    x.toFloat32 = .fin 0 := by
  unfold Exact.toFloat32
  rw [roundFloat32_of_num_zero hnum hden]
  cases x.neg <;> simp

/-- The rounding to float32 keeps the order of the numbers: a literal whose
decimal value is not above that of another does not round above it. -/
theorem toFloat32_gt_false {a b : Exact} (ha : 0 < a.den) (hb : 0 < b.den)
    (h : a.value ≤ b.value) : a.toFloat32.gt b.toFloat32 = false := by
  obtain ⟨na, numa, dena⟩ := a
  obtain ⟨nb, numb, denb⟩ := b
  simp only at ha hb
  have hqa : (0 : ℚ) < (dena : ℚ) := by exact_mod_cast ha
  have hqb : (0 : ℚ) < (denb : ℚ) := by exact_mod_cast hb
  have hva : (0 : ℚ) ≤ (numa : ℚ) / (dena : ℚ) := by positivity
  have hvb : (0 : ℚ) ≤ (numb : ℚ) / (denb : ℚ) := by positivity
  cases na <;> cases nb <;> simp only [Exact.value, Bool.false_eq_true, if_false, if_true] at h
  · -- both are not negative
    have hc : numa * denb ≤ numb * dena := by
      rw [div_le_div_iff₀ hqa hqb] at h
      exact_mod_cast h
    unfold Exact.toFloat32
    cases hrb : roundFloat32 numb denb with
    | none => cases roundFloat32 numa dena <;> simp [GoFloat.gt]
    | some k2 =>
      obtain ⟨k1, hk1, hle⟩ := roundFloat32_mono ha hb hc hrb
      simp only [hk1]
      simp [GoFloat.gt]
      omega
  · -- the first is not negative, the second is negative: both are zero
    have h0a : (numa : ℚ) / (dena : ℚ) = 0 := by linarith
    have h0b : (numb : ℚ) / (denb : ℚ) = 0 := by linarith
    have hna : numa = 0 := by
      rcases div_eq_zero_iff.mp h0a with h1 | h1
      · exact_mod_cast h1
      · exact absurd h1 (ne_of_gt hqa)
    have hnb : numb = 0 := by
      rcases div_eq_zero_iff.mp h0b with h1 | h1
      · exact_mod_cast h1
      · exact absurd h1 (ne_of_gt hqb)
    rw [toFloat32_of_num_zero _ hna ha, toFloat32_of_num_zero _ hnb hb]
    decide
  · -- the first is negative, the second is not
    unfold Exact.toFloat32
    cases roundFloat32 numa dena <;> cases roundFloat32 numb denb <;> simp [GoFloat.gt]
    omega
  · -- both are negative
    have hc : numb * dena ≤ numa * denb := by
      have h2 : (numb : ℚ) / (denb : ℚ) ≤ (numa : ℚ) / (dena : ℚ) := by linarith
      rw [div_le_div_iff₀ hqb hqa] at h2
      exact_mod_cast h2
    unfold Exact.toFloat32
    cases hra : roundFloat32 numa dena with
    | none => cases roundFloat32 numb denb <;> simp [GoFloat.gt]
    | some k1 =>
      obtain ⟨k2, hk2, hle⟩ := roundFloat32_mono hb ha hc hra
      simp only [hk2]
      simp [GoFloat.gt]
      omega

end strconv

/-! ## Lemmas on `strings.Index` and `strings.ReplaceAll` -/

namespace strings

theorem Index_eq_none {d : GoString} : ∀ {s : GoString}, Index s d = none →
    ∀ j, ¬ d <+: s.drop j
  | [], h, j => by
    unfold Index at h
    split at h
    · simp at h
    · rename_i hd
      intro hp
      simp at hp
      exact hd hp
  | c :: t, h, j => by
    unfold Index at h
    split at h
    · simp at h
    · rename_i hp
      have ht : Index t d = none := by simpa using h
      cases j with
      | zero =>
        intro hpre
        exact hp (List.isPrefixOf_iff_prefix.mpr (by simpa using hpre))
      | succ j => simpa using Index_eq_none ht j

theorem Index_eq_some {d : GoString} : ∀ {s : GoString} {i : Nat}, Index s d = some i →
    i ≤ s.length ∧ d <+: s.drop i ∧ ∀ j, j < i → ¬ d <+: s.drop j
  | [], i, h => by
    unfold Index at h
    split at h
    · rename_i hd
      have hi : i = 0 := by simpa using h.symm
      subst hi
      subst hd
      simp
    · simp at h
  | c :: t, i, h => by
    unfold Index at h
    split at h
    · rename_i hp
      have hi : i = 0 := by simpa using h.symm
      subst hi
      refine ⟨by simp, ?_, by simp⟩
      simpa using List.isPrefixOf_iff_prefix.mp hp
    · rename_i hp
      cases ht : Index t d with
      | none => simp [ht] at h
      | some k =>
        have hi : i = k + 1 := by simpa [ht] using h.symm
        subst hi
        obtain ⟨h1, h2, h3⟩ := Index_eq_some ht
        refine ⟨by simpa using h1, by simpa using h2, ?_⟩
        intro j hj
        cases j with
        | zero =>
          intro hpre
          exact hp (List.isPrefixOf_iff_prefix.mpr (by simpa using hpre))
        | succ j => simpa using h3 j (by omega)

/-- A string with an instance of `d` at index `i` is the text before it, `d`,
and the text behind it. -/
theorem eq_of_prefix_drop {d s : GoString} {i : Nat} (h : d <+: s.drop i) :
    s = s.take i ++ d ++ s.drop (i + d.length) := by
  obtain ⟨r, hr⟩ := h
  have h1 : s.drop (i + d.length) = r := by
    have : (s.drop i).drop d.length = r := by rw [← hr]; simp
    rw [← this, List.drop_drop]
  rw [h1, List.append_assoc, hr, List.take_append_drop]

theorem countLoop_fuel {d : GoString} (hd : d ≠ []) : ∀ (f f2 : Nat) (s : GoString),
    s.length < f → s.length < f2 → countLoop d f s = countLoop d f2 s
  | 0, _, _, h, _ => by omega
  | _, 0, _, _, h => by omega
  | f + 1, f2 + 1, s, h, h2 => by
    unfold countLoop
    cases hi : Index s d with
    | none => rfl
    | some i =>
      have hlen : 0 < d.length := List.length_pos.mpr hd
      have hs : 0 < s.length := by
        rcases s with _ | ⟨c, t⟩
        · simp [Index, hd] at hi
        · simp
      have hdrop : (s.drop (i + d.length)).length < s.length := by
        rw [List.length_drop]; omega
      simp only
      rw [countLoop_fuel hd f f2 _ (by omega) (by omega)]

theorem replaceLoop_first {d n : GoString} (hd : d ≠ []) (k : Nat) (s : GoString) :
    replaceLoop d n k true s = replaceLoop d n k false s := by
  have hlen : d.length ≠ 0 := by
    intro h; exact hd (List.length_eq_zero.mp h)
  cases k with
  | zero => rfl
  | succ k => simp [replaceLoop, hlen]

theorem ReplaceAll_def {d n : GoString} (hdn : d ≠ n) (s : GoString) :
    ReplaceAll s d n = if Count s d = 0 then s else replaceLoop d n (Count s d) true s := by
  simp [ReplaceAll, Replace, hdn]

theorem Count_none {d s : GoString} (hd : d ≠ []) (hi : Index s d = none) :
    Count s d = 0 := by
  have hlen : d.length ≠ 0 := by
    intro h; exact hd (List.length_eq_zero.mp h)
  simp [Count, hlen, countLoop, hi]

theorem Count_some {d s : GoString} {i : Nat} (hd : d ≠ []) (hi : Index s d = some i) :
    Count s d = Count (s.drop (i + d.length)) d + 1 := by
  have hlen : d.length ≠ 0 := by
    intro h; exact hd (List.length_eq_zero.mp h)
  have hs : 0 < s.length := by
    rcases s with _ | ⟨c, t⟩
    · simp [Index, hd] at hi
    · simp
  have hdrop : (s.drop (i + d.length)).length < s.length := by
    rw [List.length_drop]; omega
  have hfuel := countLoop_fuel hd s.length ((s.drop (i + d.length)).length + 1)
    (s.drop (i + d.length)) hdrop (by omega)
  have hstep : countLoop d (s.length + 1) s
      = 1 + countLoop d s.length (s.drop (i + d.length)) := by
    show (match Index s d with
      | none => 0
      | some i => 1 + countLoop d s.length (s.drop (i + d.length))) = _
    rw [hi]
  unfold Count
  rw [if_neg hlen, if_neg hlen, hstep, hfuel]
  omega

/-- The equation of `ReplaceAll` for a non-empty `old`: nothing changes when
`old` has no instance; else the text before the first instance is kept, the
instance is replaced, and the text behind it is treated the same way. -/
theorem ReplaceAll_eq {d : GoString} (hd : d ≠ []) (n s : GoString) :
    ReplaceAll s d n =
      match Index s d with
      | none => s
      | some i => s.take i ++ n ++ ReplaceAll (s.drop (i + d.length)) d n := by
  have hlen : d.length ≠ 0 := by
    intro h; exact hd (List.length_eq_zero.mp h)
  by_cases hdn : d = n
  · subst hdn
    cases hi : Index s d with
    | none => simp [ReplaceAll, Replace]
    | some i =>
      simp only [ReplaceAll, Replace, true_or, if_true]
      exact eq_of_prefix_drop (Index_eq_some hi).2.1
  · cases hi : Index s d with
    | none =>
      rw [ReplaceAll_def hdn, Count_none hd hi]
      simp
    | some i =>
      rw [ReplaceAll_def hdn, Count_some hd hi, if_neg (Nat.succ_ne_zero _)]
      simp only [ReplaceAll_def hdn]
      show (let j := if d.length = 0 then (if true = true then 0
          else utf8.DecodeRuneInStringWidth s) else (Index s d).getD 0
        s.take j ++ n ++ replaceLoop d n (Count (s.drop (i + d.length)) d) false
          (s.drop (j + d.length))) = _
      simp only [if_neg hlen, hi, Option.getD_some]
      congr 1
      by_cases hc : Count (s.drop (i + d.length)) d = 0
      · simp [hc, replaceLoop]
      · rw [if_neg hc]
        exact (replaceLoop_first hd _ _).symm

theorem occurs_iff_prefix_drop {d s : GoString} : d <:+: s ↔ ∃ j, d <+: s.drop j := by
  constructor
  · rintro ⟨a, b, rfl⟩
    exact ⟨a.length, by simp⟩
  · rintro ⟨j, hj⟩
    exact hj.isInfix.trans (List.drop_suffix j s).isInfix

theorem Index_of_no_instance {d s : GoString} (h : ¬ d <:+: s) : Index s d = none := by
  cases hi : Index s d with
  | none => rfl
  | some i => exact absurd (occurs_iff_prefix_drop.mpr ⟨i, (Index_eq_some hi).2.1⟩) h

/-- The index of the first instance, from what the text looks like: `d`
behind `p`, and no instance of `d` starting inside `p`. -/
theorem Index_of_leftmost {d p rest : GoString}
    (h : ∀ i, i < p.length → ¬ d <+: (p ++ d ++ rest).drop i) :
    Index (p ++ d ++ rest) d = some p.length := by
  have hat : d <+: (p ++ d ++ rest).drop p.length := by simp
  cases hi : Index (p ++ d ++ rest) d with
  | none => exact absurd hat (Index_eq_none hi p.length)
  | some k =>
    obtain ⟨_, h2, h3⟩ := Index_eq_some hi
    have h4 : ¬ k < p.length := fun hk => h k hk h2
    have h5 : ¬ p.length < k := fun hk => h3 _ hk hat
    congr 1
    omega

/-- A text without an instance of a non-empty `d` is left as it is. -/
theorem ReplaceAll_of_no_instance {d : GoString} (hd : d ≠ []) (n : GoString) {s : GoString}
    (h : ¬ d <:+: s) : ReplaceAll s d n = s := by
  rw [ReplaceAll_eq hd, Index_of_no_instance h]

/-- The replacement at the first instance of a non-empty `d`. -/
theorem ReplaceAll_leftmost {d : GoString} (hd : d ≠ []) (n : GoString) {p rest : GoString}
    (h : ∀ i, i < p.length → ¬ d <+: (p ++ d ++ rest).drop i) :
    ReplaceAll (p ++ d ++ rest) d n = p ++ n ++ ReplaceAll rest d n := by
  rw [ReplaceAll_eq hd, Index_of_leftmost h]
  simp

theorem ReplaceAll_nil {d : GoString} (hd : d ≠ []) (n : GoString) : ReplaceAll [] d n = [] := by
  rw [ReplaceAll_eq hd]
  simp [Index, hd]

theorem ReplaceAll_same (s d : GoString) : ReplaceAll s d d = s := by
  simp [ReplaceAll, Replace]

theorem LeftmostSplit_ne_nil {d s : GoString} {ps : List GoString}
    (h : LeftmostSplit d s ps) : ps ≠ [] := by
  cases h <;> simp

/-- Every text has a leftmost split at the instances of a non-empty `d`. -/
theorem LeftmostSplit_exists {d : GoString} (hd : d ≠ []) :
    ∀ (k : Nat) (s : GoString), s.length ≤ k → ∃ ps, LeftmostSplit d s ps
  | 0, s, hk => by
    have hs : s = [] := List.length_eq_zero.mp (by omega)
    subst hs
    exact ⟨[[]], .last [] (by
      intro h
      exact hd (List.eq_nil_of_infix_nil h))⟩
  | k + 1, s, hk => by
    cases hi : Index s d with
    | none =>
      exact ⟨[s], .last s (fun h => by
        obtain ⟨j, hj⟩ := occurs_iff_prefix_drop.mp h
        exact Index_eq_none hi j hj)⟩
    | some i =>
      obtain ⟨h1, h2, h3⟩ := Index_eq_some hi
      have hlen : 0 < d.length := List.length_pos.mpr hd
      have hs := eq_of_prefix_drop h2
      have hdrop : (s.drop (i + d.length)).length ≤ k := by
        rw [List.length_drop]; omega
      obtain ⟨ps, hps⟩ := LeftmostSplit_exists hd k _ hdrop
      have hleft : ∀ j, j < (s.take i).length →
          ¬ d <+: (s.take i ++ d ++ s.drop (i + d.length)).drop j := by
        intro j hj
        rw [← hs]
        exact h3 j (by
          have := List.length_take_le i s
          omega)
      have hsplit := LeftmostSplit.cons (s.take i) (s.drop (i + d.length)) ps hleft hps
      rw [← hs] at hsplit
      exact ⟨_, hsplit⟩

/-- The replacement of a non-empty `d` joins the pieces of a leftmost split
with `n`. -/
theorem ReplaceAll_of_split {d : GoString} (hd : d ≠ []) (n : GoString) {s : GoString}
    {ps : List GoString} (h : LeftmostSplit d s ps) :
    ReplaceAll s d n = List.intercalate n ps := by
  induction h with
  | last p hp =>
    rw [ReplaceAll_of_no_instance hd n hp]
    simp [List.intercalate]
  | cons p rest ps hleft hrest ih =>
    rw [ReplaceAll_leftmost hd n hleft, ih]
    have hne := LeftmostSplit_ne_nil hrest
    cases ps with
    | nil => exact absurd rfl hne
    | cons q qs => simp [List.intercalate, List.intersperse]

end strings

/-! ## Lemmas on the loop of `ReplaceManifestUnSupportedAPIs` -/

/-- The test `modified` of the loop adds nothing: an iteration keeps the
manifest when the entry is not valid yet on the cluster, and else takes the
replaced manifest, changed or not. -/
theorem mapOne_eq (kubeVersion : strconv.GoFloat) (m : GoString) (e : mapping.Mapping) :
    mapOne kubeVersion m e =
      if (strconv.ParseFloat32 (apiVersionStr e)).1.gt kubeVersion then m
      else strings.ReplaceAll m e.DeprecatedAPI e.NewAPI := by
  unfold mapOne
  by_cases h : strings.ReplaceAll m e.DeprecatedAPI e.NewAPI = m
  · simp [h]
  · simp [h]

/-- With the catalog loaded and the server version obtained, the result is the
fold of the loop body over the catalog, and no error. -/
theorem run_ok {env : Collaborators} {mapFile : GoString} {kubeConfig : KubeConfig}
    {md : mapping.Metadata} {v : GoString} (m : GoString)
    (hload : env.LoadMapfile mapFile = .ok md)
    (hver : getKubernetesServerVersion env kubeConfig = (v, none)) :
    ReplaceManifestUnSupportedAPIs env m mapFile kubeConfig
      = (md.Mappings.foldl (mapOne (strconv.ParseFloat32 v).1) m, none) := by
  unfold ReplaceManifestUnSupportedAPIs
  rw [hload]
  simp only
  rw [hver]

theorem GoFloat_lt_gt (a b : strconv.GoFloat) : a.lt b = b.gt a := by
  cases a <;> cases b <;> simp [strconv.GoFloat.lt, strconv.GoFloat.gt, Bool.and_comm]

theorem GoFloat_le_not_gt {a b : strconv.GoFloat} (h : a.le b = true) : a.gt b = false := by
  cases a <;> cases b <;> simp_all [strconv.GoFloat.le, strconv.GoFloat.gt]
  all_goals first | omega | (rcases h with h | h <;> simp_all)

/-- The result with a given catalog: the error of the version query, or the
fold of the loop body over the catalog. -/
theorem run_withCatalog (env : Collaborators) (cat : List mapping.Mapping)
    (m mapFile : GoString) (kubeConfig : KubeConfig) :
    ReplaceManifestUnSupportedAPIs (withCatalog env cat) m mapFile kubeConfig =
      match getKubernetesServerVersion env kubeConfig with
      | (_, some err) => ([], some err)
      | (v, none) => (cat.foldl (mapOne (strconv.ParseFloat32 v).1) m, none) := rfl

/-- The loop body reads of an entry its two APIs and its effective version
string, and nothing else. -/
theorem mapOne_congr (kubeVersion : strconv.GoFloat) (m : GoString) {e e2 : mapping.Mapping}
    (hd : e2.DeprecatedAPI = e.DeprecatedAPI) (hn : e2.NewAPI = e.NewAPI)
    (hv : apiVersionStr e2 = apiVersionStr e) :
    mapOne kubeVersion m e2 = mapOne kubeVersion m e := by
  simp [mapOne, hd, hn, hv]

/-- Two entries that the loop body cannot tell apart can stand for each other
at any place of a catalog. -/
theorem run_congr_entry (env : Collaborators) (m mapFile : GoString) (kubeConfig : KubeConfig)
    (pre post : List mapping.Mapping) {e e2 : mapping.Mapping}
    (hd : e2.DeprecatedAPI = e.DeprecatedAPI) (hn : e2.NewAPI = e.NewAPI)
    (hv : apiVersionStr e2 = apiVersionStr e) :
    ReplaceManifestUnSupportedAPIs (withCatalog env (pre ++ [e2] ++ post)) m mapFile kubeConfig
      = ReplaceManifestUnSupportedAPIs (withCatalog env (pre ++ [e] ++ post)) m mapFile
          kubeConfig := by
  rw [run_withCatalog, run_withCatalog]
  simp [List.foldl_append, mapOne_congr _ _ hd hn hv]

/-! ## Lemmas on local edits -/

theorem LocalEdit_refl (cat : List mapping.Mapping) : ∀ s : GoString, LocalEdit cat s s
  | [] => .done
  | c :: t => .keep c t t (LocalEdit_refl cat t)

theorem LocalEdit_append_left (cat : List mapping.Mapping) {s out : GoString}
    (h : LocalEdit cat s out) : ∀ p : GoString, LocalEdit cat (p ++ s) (p ++ out)
  | [] => h
  | c :: t => .keep c _ _ (LocalEdit_append_left cat h t)

/-- The loop of `strings.Replace` for an empty `old` only inserts `new`. -/
theorem LocalEdit_replaceLoop_empty (e : mapping.Mapping) (hd : e.DeprecatedAPI = []) :
    ∀ (k : Nat) (first : Bool) (rest : GoString),
      LocalEdit [e] rest (strings.replaceLoop [] e.NewAPI k first rest)
  | 0, _, rest => LocalEdit_refl _ rest
  | k + 1, first, rest => by
    have key : ∀ j : Nat, LocalEdit [e] rest
        (rest.take j ++ e.NewAPI ++ strings.replaceLoop [] e.NewAPI k false (rest.drop (j + 0))) := by
      intro j
      have h1 := LocalEdit_replaceLoop_empty e hd k false (rest.drop j)
      have h2 := LocalEdit.subst e _ _ (List.mem_singleton.mpr rfl) h1
      rw [hd] at h2
      have h3 := LocalEdit_append_left [e] h2 (rest.take j)
      simpa [List.append_assoc] using h3
    exact key _

/-- The replacement of all instances of `DeprecatedAPI` by `NewAPI` is a local
edit for that entry. -/
theorem LocalEdit_ReplaceAll (e : mapping.Mapping) :
    ∀ (k : Nat) (s : GoString), s.length ≤ k →
      LocalEdit [e] s (strings.ReplaceAll s e.DeprecatedAPI e.NewAPI)
  | k, s, hk => by
    by_cases hd : e.DeprecatedAPI = []
    · rw [hd]
      unfold strings.ReplaceAll strings.Replace
      split
      · exact LocalEdit_refl _ s
      · simp only
        split
        · exact LocalEdit_refl _ s
        · exact LocalEdit_replaceLoop_empty e hd _ _ _
    · rw [strings.ReplaceAll_eq hd]
      cases hi : strings.Index s e.DeprecatedAPI with
      | none => exact LocalEdit_refl _ s
      | some i =>
        obtain ⟨h1, h2, h3⟩ := strings.Index_eq_some hi
        have hlen : 0 < e.DeprecatedAPI.length := List.length_pos.mpr hd
        have hs := strings.eq_of_prefix_drop h2
        cases k with
        | zero =>
          have : s = [] := List.length_eq_zero.mp (by omega)
          subst this
          simp at h2
          exact absurd h2 hd
        | succ k =>
          have hdrop : (s.drop (i + e.DeprecatedAPI.length)).length ≤ k := by
            rw [List.length_drop]
            have : 0 < s.length := by
              rcases s with _ | ⟨c, t⟩
              · simp at h2; exact absurd h2 hd
              · simp
            omega
          have ih := LocalEdit_ReplaceAll e k _ hdrop
          have h4 := LocalEdit.subst e _ _ (List.mem_singleton.mpr rfl) ih
          have h5 := LocalEdit_append_left [e] h4 (s.take i)
          simp only
          rw [List.append_assoc]
          rw [← List.append_assoc] at h5
          rw [← hs] at h5
          exact h5

/-- One iteration of the loop is a local edit for its entry. -/
theorem LocalEdit_mapOne (kubeVersion : strconv.GoFloat) (m : GoString) (e : mapping.Mapping) :
    LocalEdit [e] m (mapOne kubeVersion m e) := by
  rw [mapOne_eq]
  split
  · exact LocalEdit_refl _ m
  · exact LocalEdit_ReplaceAll e m.length m (Nat.le_refl _)

theorem EditChain_foldl (kubeVersion : strconv.GoFloat) :
    ∀ (cat : List mapping.Mapping) (m : GoString),
      EditChain cat m (cat.foldl (mapOne kubeVersion) m)
  | [], m => .nil m
  | e :: cat, m =>
    .cons e cat m _ _ (LocalEdit_mapOne kubeVersion m e) (EditChain_foldl kubeVersion cat _)

/-- The ways a local edit of a non-empty text can start. -/
theorem LocalEdit_cases {cat : List mapping.Mapping} {s out : GoString}
    (h : LocalEdit cat s out) :
    (s = [] ∧ out = []) ∨
    (∃ c s2 out2, s = c :: s2 ∧ out = c :: out2) ∨
    (∃ e, e ∈ cat ∧ e.DeprecatedAPI <+: s ∧ e.NewAPI <+: out) := by
  cases h with
  | done => exact .inl ⟨rfl, rfl⟩
  | keep c s2 out2 _ => exact .inr (.inl ⟨c, s2, out2, rfl, rfl⟩)
  | subst e s2 out2 he _ => exact .inr (.inr ⟨e, he, List.prefix_append _ _, List.prefix_append _ _⟩)

/-- A manifest that no iteration changes is what the loop returns. -/
theorem foldl_mapOne_fixed (kubeVersion : strconv.GoFloat) (out : GoString) :
    ∀ cat : List mapping.Mapping, (∀ e, e ∈ cat → mapOne kubeVersion out e = out) →
      cat.foldl (mapOne kubeVersion) out = out
  | [], _ => rfl
  | e :: cat, h => by
    rw [List.foldl_cons, h e (List.mem_cons_self _ _)]
    exact foldl_mapOne_fixed kubeVersion out cat (fun e2 he2 => h e2 (List.mem_cons_of_mem _ he2))

/-- A syntax error of `ParseFloat` comes with the value 0. -/
theorem ParseFloat32_syntax_zero {s : GoString}
    (h : (strconv.ParseFloat32 s).2 = some .ErrSyntax) :
    (strconv.ParseFloat32 s).1 = .fin 0 := by
  unfold strconv.ParseFloat32 at h ⊢
  cases hs : strconv.special s with
  | some v => simp [hs] at h
  | none =>
    cases hr : strconv.readFloat s with
    | none => simp
    | some x =>
      cases hk : strconv.roundFloat32 x.num x.den with
      | none => simp [hs, hr, hk] at h
      | some k => simp [hs, hr, hk] at h

/-- The loop is the fold of the substitution over the entries that are valid
on the cluster. -/
theorem foldl_mapOne_eq_foldValidEntries (v : GoString) :
    ∀ (cat : List mapping.Mapping) (m : GoString),
      cat.foldl (mapOne (strconv.ParseFloat32 v).1) m = foldValidEntries v cat m
  | [], _ => rfl
  | e :: cat, m => by
    have ih := foldl_mapOne_eq_foldValidEntries v cat
    unfold foldValidEntries at ih ⊢
    rw [List.foldl_cons, ih, mapOne_eq]
    by_cases h : notYetValid v e = true
    · have h2 : (strconv.ParseFloat32 (apiVersionStr e)).1.gt (strconv.ParseFloat32 v).1 = true := h
      simp [List.filter_cons, h, h2]
    · have h2 : ¬ (strconv.ParseFloat32 (apiVersionStr e)).1.gt (strconv.ParseFloat32 v).1 = true := h
      simp [List.filter_cons, h, h2]

/-! ## Lemmas on strings that do not overlap -/

/-- An instance of `d` in a text around an inserted `n` lies before `n`, or
behind it, unless `d` and `n` overlap. -/
theorem occurs_in_insertion {d n x y : GoString} (h : d <:+: x ++ n ++ y) :
    d <:+: x ∨ d <:+: y ∨ Overlap d n := by
  obtain ⟨u, w, huw⟩ := h
  have h1 : u ++ (d ++ w) = x ++ (n ++ y) := by simpa [List.append_assoc] using huw
  rcases List.append_eq_append_iff.mp h1 with ⟨a, hx, hdw⟩ | ⟨c, hu, hny⟩
  · -- the instance starts in `x`
    rcases List.append_eq_append_iff.mp hdw with ⟨b, h2, h3⟩ | ⟨b, h2, h3⟩
    · exact .inl ⟨u, b, by rw [hx, h2, List.append_assoc]⟩
    · by_cases hb : b = []
      · subst hb
        rw [List.append_nil] at h2
        exact .inl ⟨u, [], by rw [hx, h2, List.append_nil]⟩
      · rcases List.append_eq_append_iff.mp h3 with ⟨t, h4, h5⟩ | ⟨t, h4, h5⟩
        · exact .inr (.inr (.inr (.inr (.inr ⟨a, t, by rw [h2, h4, List.append_assoc]⟩))))
        · exact .inr (.inr (.inl ⟨b, (List.mem_tails b d).mpr ⟨a, h2.symm⟩, hb, ⟨t, h4.symm⟩⟩))
  · -- the instance starts in `n` or behind it
    rcases List.append_eq_append_iff.mp hny with ⟨b, h2, h3⟩ | ⟨b, h2, h3⟩
    · exact .inr (.inl ⟨b, w, by rw [h3, List.append_assoc]⟩)
    · by_cases hb : b = []
      · subst hb
        rw [List.nil_append] at h3
        exact .inr (.inl ⟨[], w, by rw [← h3, List.nil_append]⟩)
      · rcases List.append_eq_append_iff.mp h3 with ⟨t, h4, h5⟩ | ⟨t, h4, h5⟩
        · exact .inr (.inr (.inr (.inr (.inl ⟨c, t, by rw [h2, h4, List.append_assoc]⟩))))
        · exact .inr (.inr (.inr (.inl ⟨b, (List.mem_tails b n).mpr ⟨c, h2.symm⟩, hb,
            ⟨t, h4.symm⟩⟩)))

theorem ne_nil_of_not_Overlap {d n : GoString} (h : ¬ Overlap d n) : d ≠ [] ∧ n ≠ [] := by
  constructor
  · rintro rfl
    exact h (.inr (.inr (.inl List.nil_infix)))
  · rintro rfl
    exact h (.inr (.inr (.inr List.nil_infix)))

namespace strings

/-- The replacement of `d` by `n` brings no instance of `d2` into the text
when `d2` and `n` do not overlap: an instance of `d2` in the result is an
instance in the text. -/
theorem occurs_of_occurs_ReplaceAll {d n d2 : GoString} (hd : d ≠ [])
    (hov : ¬ Overlap d2 n) : ∀ (k : Nat) (s : GoString), s.length ≤ k →
      d2 <:+: ReplaceAll s d n → d2 <:+: s
  | k, s, hk, h => by
    rw [ReplaceAll_eq hd] at h
    cases hi : Index s d with
    | none =>
      rw [hi] at h
      exact h
    | some i =>
      rw [hi] at h
      simp only at h
      obtain ⟨h1, h2, h3⟩ := Index_eq_some hi
      have hlen : 0 < d.length := List.length_pos.mpr hd
      cases k with
      | zero =>
        have : s = [] := List.length_eq_zero.mp (by omega)
        subst this
        simp [Index, hd] at hi
      | succ k =>
        have hspos : 0 < s.length := by
          rcases s with _ | ⟨c, t⟩
          · simp [Index, hd] at hi
          · simp
        have hdrop : (s.drop (i + d.length)).length ≤ k := by
          rw [List.length_drop]
          omega
        rcases occurs_in_insertion h with hx | hy | ho
        · exact hx.trans (List.take_prefix i s).isInfix
        · exact (occurs_of_occurs_ReplaceAll hd hov k _ hdrop hy).trans
            (List.drop_suffix _ s).isInfix
        · exact absurd ho hov

/-- The replacement of `d` by `n` leaves no instance of `d` when `d` and `n`
do not overlap. -/
theorem no_instance_in_ReplaceAll {d n : GoString} (hov : ¬ Overlap d n) :
    ∀ (k : Nat) (s : GoString), s.length ≤ k → ¬ d <:+: ReplaceAll s d n
  | k, s, hk, h => by
    have hd : d ≠ [] := (ne_nil_of_not_Overlap hov).1
    have hlen : 0 < d.length := List.length_pos.mpr hd
    rw [ReplaceAll_eq hd] at h
    cases hi : Index s d with
    | none =>
      rw [hi] at h
      obtain ⟨j, hj⟩ := occurs_iff_prefix_drop.mp h
      exact Index_eq_none hi j hj
    | some i =>
      rw [hi] at h
      simp only at h
      obtain ⟨h1, h2, h3⟩ := Index_eq_some hi
      cases k with
      | zero =>
        have : s = [] := List.length_eq_zero.mp (by omega)
        subst this
        simp [Index, hd] at hi
      | succ k =>
        have hspos : 0 < s.length := by
          rcases s with _ | ⟨c, t⟩
          · simp [Index, hd] at hi
          · simp
        have hdrop : (s.drop (i + d.length)).length ≤ k := by
          rw [List.length_drop]
          omega
        rcases occurs_in_insertion h with hx | hy | ho
        · obtain ⟨a, b, hab⟩ := hx
          have hs : s = a ++ (d ++ (b ++ s.drop i)) := by
            conv_lhs => rw [← List.take_append_drop i s, ← hab]
            simp [List.append_assoc]
          have hlt : a.length < i := by
            have h4 : (a ++ d ++ b).length ≤ i := by
              rw [hab]
              exact List.length_take_le i s
            simp only [List.length_append] at h4
            omega
          have hpre : d <+: s.drop a.length := by
            rw [hs, List.drop_left]
            exact List.prefix_append _ _
          exact h3 _ hlt hpre
        · exact no_instance_in_ReplaceAll hov k _ hdrop hy
        · exact absurd ho hov

end strings

/-- After the substitutions of a list of entries no two of which overlap,
taken one after the other, the text holds no instance of the `DeprecatedAPI`
of any of them. -/
theorem no_instance_after_foldl :
    ∀ (L : List mapping.Mapping),
      (∀ A, A ∈ L → ∀ B, B ∈ L → ¬ Overlap B.DeprecatedAPI A.NewAPI) →
      ∀ (m : GoString) (e : mapping.Mapping), e ∈ L →
        ¬ e.DeprecatedAPI <:+:
          L.foldl (fun current e => strings.ReplaceAll current e.DeprecatedAPI e.NewAPI) m := by
  intro L
  induction L using List.reverseRecOn with
  | nil => intro _ m e he; simp at he
  | append_singleton L0 a ih =>
    intro hL m e he
    rw [List.foldl_append]
    simp only [List.foldl_cons, List.foldl_nil]
    have hL0 : ∀ A, A ∈ L0 → ∀ B, B ∈ L0 → ¬ Overlap B.DeprecatedAPI A.NewAPI :=
      fun A hA B hB => hL A (List.mem_append_left _ hA) B (List.mem_append_left _ hB)
    have ha : a ∈ L0 ++ [a] := List.mem_append_right _ (List.mem_singleton.mpr rfl)
    rcases List.mem_append.mp he with he0 | hea
    · intro hocc
      have hda : a.DeprecatedAPI ≠ [] := (ne_nil_of_not_Overlap (hL a ha a ha)).1
      exact ih hL0 m e he0
        (strings.occurs_of_occurs_ReplaceAll hda (hL a ha e he) _ _ (Nat.le_refl _) hocc)
    · have : e = a := List.mem_singleton.mp hea
      subst this
      exact strings.no_instance_in_ReplaceAll (hL e ha e ha) _ _ (Nat.le_refl _)

theorem GoFloat_gt_irrefl (x : strconv.GoFloat) : x.gt x = false := by
  cases x <;> simp [strconv.GoFloat.gt]

theorem toFloat32_ne_NaN (x : strconv.Exact) : x.toFloat32 ≠ .NaN := by
  unfold strconv.Exact.toFloat32
  split <;> simp

/-- Two float values that are not NaN and of which neither is greater than
the other are equal. -/
theorem GoFloat_eq_of_not_gt {x y : strconv.GoFloat} (hx : x ≠ .NaN) (hy : y ≠ .NaN)
    (h1 : x.gt y = false) (h2 : y.gt x = false) : x = y := by
  cases x with
  | NaN => exact absurd rfl hx
  | Inf n =>
    cases y with
    | NaN => exact absurd rfl hy
    | Inf n2 => cases n <;> cases n2 <;> simp_all [strconv.GoFloat.gt]
    | fin k => cases n <;> simp_all [strconv.GoFloat.gt]
  | fin k =>
    cases y with
    | NaN => exact absurd rfl hy
    | Inf n2 => cases n2 <;> simp_all [strconv.GoFloat.gt]
    | fin k2 =>
      simp only [strconv.GoFloat.gt, decide_eq_false_iff_not, not_lt] at h1 h2
      rw [Int.le_antisymm h2 h1]

/-! ## Version gating -/

/-- C1, as stated, fails: the effective version `1.220000001` and the cluster
version `1.22` both parse, the cluster version is strictly lower, and the
manifest is not returned unchanged: both strings round to the same float32
number, and the substitution is applied. -/
theorem version_gating_counterexample :
    (strconv.ParseFloat32 (apiVersionStr ⟨str "v1beta1", str "v1", str "1.220000001", []⟩)).2
      = none ∧
    (strconv.ParseFloat32 (str "1.22")).2 = none ∧
    (∃ a b, strconv.readFloat (apiVersionStr ⟨str "v1beta1", str "v1", str "1.220000001", []⟩)
        = some a ∧
      strconv.readFloat (str "1.22") = some b ∧ b.value < a.value) ∧
    ReplaceManifestUnSupportedAPIs
        (fixedEnv [⟨str "v1beta1", str "v1", str "1.220000001", []⟩] (str "1") (str "22"))
        (str "apiVersion: v1beta1") [] noConfig
      = (str "apiVersion: v1", none) ∧
    ReplaceManifestUnSupportedAPIs
        (fixedEnv [⟨str "v1beta1", str "v1", str "1.220000001", []⟩] (str "1") (str "22"))
        (str "apiVersion: v1beta1") [] noConfig
      ≠ (str "apiVersion: v1beta1", none) := by
  refine ⟨by decide, by decide,
    ⟨⟨false, 1220000001, 1000000000⟩, ⟨false, 122, 100⟩, by decide, by decide, ?_⟩,
    by decide, by decide⟩
  simp only [strconv.Exact.value]
  norm_num

/-- C1, amended: with a catalog of one entry whose effective version and the
cluster version are both literals with decimal values, the manifest is
returned with every instance of `DeprecatedAPI` replaced by `NewAPI` when the
cluster version is equal to or higher than the effective version as a decimal;
it is returned unchanged when the float32 number nearest to the cluster
version is strictly lower than the float32 number nearest to the effective
version, which only happens when the cluster version is strictly lower as a
decimal; and a cluster version that is strictly lower as a decimal either
rounds strictly lower, or rounds to the same float32 number as the effective
version, and then the substitution is applied. -/
theorem version_gating_single_entry (env : Collaborators) (m mapFile : GoString)
    (kubeConfig : KubeConfig) (e : mapping.Mapping) (v : GoString) (a b : strconv.Exact)
    (hload : env.LoadMapfile mapFile = .ok ⟨[e]⟩)
    (hver : getKubernetesServerVersion env kubeConfig = (v, none))
    (he : strconv.readFloat (apiVersionStr e) = some a)
    (hk : strconv.readFloat v = some b) :
    (a.value ≤ b.value →
      ReplaceManifestUnSupportedAPIs env m mapFile kubeConfig
        = (strings.ReplaceAll m e.DeprecatedAPI e.NewAPI, none)) ∧
    (b.toFloat32.lt a.toFloat32 = true →
      b.value < a.value ∧
      ReplaceManifestUnSupportedAPIs env m mapFile kubeConfig = (m, none)) ∧
    (b.value < a.value →
      b.toFloat32.lt a.toFloat32 = true ∨
      (a.toFloat32 = b.toFloat32 ∧
        ReplaceManifestUnSupportedAPIs env m mapFile kubeConfig
          = (strings.ReplaceAll m e.DeprecatedAPI e.NewAPI, none))) := by
  have hrun : ReplaceManifestUnSupportedAPIs env m mapFile kubeConfig
      = (if a.toFloat32.gt b.toFloat32 then m
          else strings.ReplaceAll m e.DeprecatedAPI e.NewAPI, none) := by
    rw [run_ok m hload hver]
    simp [mapOne_eq, strconv.ParseFloat32_of_readFloat he, strconv.ParseFloat32_of_readFloat hk]
  have hda := strconv.readFloat_den_pos he
  have hdb := strconv.readFloat_den_pos hk
  refine ⟨?_, ?_, ?_⟩
  · intro hle
    rw [hrun, strconv.toFloat32_gt_false hda hdb hle]
    simp
  · intro hlt
    rw [GoFloat_lt_gt] at hlt
    refine ⟨?_, by rw [hrun, hlt]; simp⟩
    by_contra hle
    rw [strconv.toFloat32_gt_false hda hdb (not_lt.mp hle)] at hlt
    exact absurd hlt (by simp)
  · intro hlt
    have hba : b.toFloat32.gt a.toFloat32 = false :=
      strconv.toFloat32_gt_false hdb hda (le_of_lt hlt)
    by_cases hab : a.toFloat32.gt b.toFloat32 = true
    · exact .inl (by rw [GoFloat_lt_gt]; exact hab)
    · have hab2 : a.toFloat32.gt b.toFloat32 = false := by simpa using hab
      refine .inr ⟨GoFloat_eq_of_not_gt (toFloat32_ne_NaN a) (toFloat32_ne_NaN b) hab2 hba, ?_⟩
      rw [hrun, hab2]
      simp

/-- The entry `v1beta1` to `v1`, deprecated in 1.22, is left alone on cluster
1.21 and applied on clusters 1.22 and 1.25. -/
theorem version_gating_single_entry_witness :
    ReplaceManifestUnSupportedAPIs
        (fixedEnv [⟨str "v1beta1", str "v1", str "1.22", []⟩] (str "1") (str "21"))
        (str "apiVersion: v1beta1") [] noConfig = (str "apiVersion: v1beta1", none) ∧
    ReplaceManifestUnSupportedAPIs
        (fixedEnv [⟨str "v1beta1", str "v1", str "1.22", []⟩] (str "1") (str "22"))
        (str "apiVersion: v1beta1") [] noConfig
      = (strings.ReplaceAll (str "apiVersion: v1beta1") (str "v1beta1") (str "v1"), none) ∧
    ReplaceManifestUnSupportedAPIs
        (fixedEnv [⟨str "v1beta1", str "v1", str "1.22", []⟩] (str "1") (str "25"))
        (str "apiVersion: v1beta1") [] noConfig
      = (strings.ReplaceAll (str "apiVersion: v1beta1") (str "v1beta1") (str "v1"), none) ∧
    strings.ReplaceAll (str "apiVersion: v1beta1") (str "v1beta1") (str "v1")
      = str "apiVersion: v1" :=
  ⟨((version_gating_single_entry
      (fixedEnv [⟨str "v1beta1", str "v1", str "1.22", []⟩] (str "1") (str "21"))
      (str "apiVersion: v1beta1") [] noConfig ⟨str "v1beta1", str "v1", str "1.22", []⟩
      (str "1.21") ⟨false, 122, 100⟩ ⟨false, 121, 100⟩ rfl (by decide) (by decide)
      (by decide)).2.1 (by decide)).2,
   (version_gating_single_entry
      (fixedEnv [⟨str "v1beta1", str "v1", str "1.22", []⟩] (str "1") (str "22"))
      (str "apiVersion: v1beta1") [] noConfig ⟨str "v1beta1", str "v1", str "1.22", []⟩
      (str "1.22") ⟨false, 122, 100⟩ ⟨false, 122, 100⟩ rfl (by decide) (by decide)
      (by decide)).1 (le_refl _),
   (version_gating_single_entry
      (fixedEnv [⟨str "v1beta1", str "v1", str "1.22", []⟩] (str "1") (str "25"))
      (str "apiVersion: v1beta1") [] noConfig ⟨str "v1beta1", str "v1", str "1.22", []⟩
      (str "1.25") ⟨false, 122, 100⟩ ⟨false, 125, 100⟩ rfl (by decide) (by decide)
      (by decide)).1 (by simp only [strconv.Exact.value]; norm_num),
   by decide⟩

/-! ## Errors -/

/-- C2 (the code departs from the claim): a cluster that reports major `1`
and minor `22+` has the version string `1.22+`, which `ParseFloat` rejects
with a syntax error; the call still returns a manifest and a nil error, with
the cluster version taken as 0, so that an entry deprecated in 1.16 is held
back. -/
theorem unparseable_cluster_version_returns_manifest :
    getKubernetesServerVersion
        (fixedEnv [⟨str "v1beta1", str "v1", str "1.16", []⟩] (str "1") (str "22+")) noConfig
      = (str "1.22+", none) ∧
    strconv.ParseFloat32 (str "1.22+") = (.fin 0, some .ErrSyntax) ∧
    ReplaceManifestUnSupportedAPIs
        (fixedEnv [⟨str "v1beta1", str "v1", str "1.16", []⟩] (str "1") (str "22+"))
        (str "apiVersion: v1beta1") [] noConfig
      = (str "apiVersion: v1beta1", none) := by
  decide

/-- C3 (the code departs from the claim): an entry whose effective version
`v1.22` does not parse is not skipped: its version is taken as 0 and its
substitution is applied on cluster 1.21, where the catalog without the entry
leaves the manifest as it is. -/
theorem unparseable_entry_version_is_applied :
    strconv.ParseFloat32 (apiVersionStr ⟨str "v1beta1", str "v1", str "v1.22", []⟩)
      = (.fin 0, some .ErrSyntax) ∧
    ReplaceManifestUnSupportedAPIs
        (fixedEnv ([] ++ [⟨str "v1beta1", str "v1", str "v1.22", []⟩] ++ []) (str "1") (str "21"))
        (str "apiVersion: v1beta1") [] noConfig
      = (str "apiVersion: v1", none) ∧
    ReplaceManifestUnSupportedAPIs (fixedEnv ([] ++ []) (str "1") (str "21"))
        (str "apiVersion: v1beta1") [] noConfig
      = (str "apiVersion: v1beta1", none) := by
  decide

/-- C4: when loading the mapping file fails, when no client set can be made,
or when the query of the server version fails, the call returns the empty
string together with an error; and a call that returns a nil error has loaded
the catalog and obtained the server version. -/
theorem fatal_failures_return_no_manifest (env : Collaborators) (m mapFile : GoString)
    (kubeConfig : KubeConfig) :
    (∀ err, env.LoadMapfile mapFile = .error err →
      ∃ err2, ReplaceManifestUnSupportedAPIs env m mapFile kubeConfig = ([], some err2)) ∧
    (env.GetClientSetWithKubeConfig kubeConfig.File kubeConfig.Context = none →
      ∃ err2, ReplaceManifestUnSupportedAPIs env m mapFile kubeConfig = ([], some err2)) ∧
    (∀ clientSet err,
      env.GetClientSetWithKubeConfig kubeConfig.File kubeConfig.Context = some clientSet →
      clientSet.ServerVersion = .error err →
      ∃ err2, ReplaceManifestUnSupportedAPIs env m mapFile kubeConfig = ([], some err2)) ∧
    (∀ err, (getKubernetesServerVersion env kubeConfig).2 = some err →
      ∃ err2, ReplaceManifestUnSupportedAPIs env m mapFile kubeConfig = ([], some err2)) ∧
    ((ReplaceManifestUnSupportedAPIs env m mapFile kubeConfig).2 = none →
      (∃ md, env.LoadMapfile mapFile = .ok md) ∧
      ∃ clientSet info,
        env.GetClientSetWithKubeConfig kubeConfig.File kubeConfig.Context = some clientSet ∧
        clientSet.ServerVersion = .ok info ∧
        getKubernetesServerVersion env kubeConfig = (info.Major ++ str "." ++ info.Minor, none)) := by
  have hloadErr : ∀ err, env.LoadMapfile mapFile = .error err →
      ReplaceManifestUnSupportedAPIs env m mapFile kubeConfig
        = ([], some (.wrap err (str "Failed to load mapping file: " ++ mapFile))) := by
    intro err h
    simp [ReplaceManifestUnSupportedAPIs, h]
  have hverErr : ∀ err, (getKubernetesServerVersion env kubeConfig).2 = some err →
      ∃ err2, ReplaceManifestUnSupportedAPIs env m mapFile kubeConfig = ([], some err2) := by
    intro err h
    cases hl : env.LoadMapfile mapFile with
    | error err => exact ⟨_, hloadErr err hl⟩
    | ok md =>
      refine ⟨err, ?_⟩
      unfold ReplaceManifestUnSupportedAPIs
      rw [hl]
      rcases hg : getKubernetesServerVersion env kubeConfig with ⟨vs, _ | e2⟩
      · rw [hg] at h; simp at h
      · rw [hg] at h
        simp at h
        simp [h]
  refine ⟨fun err h => ⟨_, hloadErr err h⟩, ?_, ?_, hverErr, ?_⟩
  · intro h
    exact hverErr (.errorf (str "kubernetes cluster unreachable"))
      (by simp [getKubernetesServerVersion, h])
  · intro clientSet err h hs
    exact hverErr (.wrap err (str "kubernetes cluster unreachable"))
      (by simp [getKubernetesServerVersion, h, hs])
  · intro h
    cases hl : env.LoadMapfile mapFile with
    | error err => simp [ReplaceManifestUnSupportedAPIs, hl] at h
    | ok md =>
      refine ⟨⟨md, rfl⟩, ?_⟩
      cases hc : env.GetClientSetWithKubeConfig kubeConfig.File kubeConfig.Context with
      | none => simp [ReplaceManifestUnSupportedAPIs, hl, getKubernetesServerVersion, hc] at h
      | some clientSet =>
        cases hs : clientSet.ServerVersion with
        | error err =>
          simp [ReplaceManifestUnSupportedAPIs, hl, getKubernetesServerVersion, hc, hs] at h
        | ok info =>
          exact ⟨clientSet, info, rfl, hs, by simp [getKubernetesServerVersion, hc, hs]⟩

/-- A catalog that cannot be loaded, and a cluster that cannot be reached,
each give the empty string and an error, whatever the manifest. -/
theorem fatal_failures_return_no_manifest_witness :
    (∃ err2, ReplaceManifestUnSupportedAPIs
        ⟨fun _ => .error (.external (str "no such file")), fun _ _ => some ⟨.ok ⟨str "1", str "22"⟩⟩⟩
        (str "apiVersion: v1beta1") (str "map.yaml") noConfig = ([], some err2)) ∧
    (∃ err2, ReplaceManifestUnSupportedAPIs
        ⟨fun _ => .ok ⟨[]⟩, fun _ _ => none⟩
        (str "apiVersion: v1beta1") (str "map.yaml") noConfig = ([], some err2)) :=
  ⟨(fatal_failures_return_no_manifest
      ⟨fun _ => .error (.external (str "no such file")), fun _ _ => some ⟨.ok ⟨str "1", str "22"⟩⟩⟩
      (str "apiVersion: v1beta1") (str "map.yaml") noConfig).1 _ rfl,
   (fatal_failures_return_no_manifest ⟨fun _ => .ok ⟨[]⟩, fun _ _ => none⟩
      (str "apiVersion: v1beta1") (str "map.yaml") noConfig).2.1 rfl⟩

/-! ## The effective version -/

/-- C5: the version that gates an entry is `DeprecatedInVersion` whenever that
field is not empty, whatever `RemovedInVersion` holds: the result does not
change when `RemovedInVersion` is replaced by any string `r`. It is
`RemovedInVersion` when `DeprecatedInVersion` is empty: the entry then acts as
the entry with `RemovedInVersion` in the place of `DeprecatedInVersion`. On
cluster 1.23 the entry `extensions/v1beta1` to `networking.k8s.io/v1`, with
only `RemovedInVersion` 1.22, rewrites the Ingress manifest. -/
theorem effective_version_resolution (env : Collaborators) (m mapFile : GoString)
    (kubeConfig : KubeConfig) (pre post : List mapping.Mapping) (e : mapping.Mapping) :
    (e.DeprecatedInVersion ≠ [] →
      apiVersionStr e = e.DeprecatedInVersion ∧
      ∀ r : GoString,
        ReplaceManifestUnSupportedAPIs
            (withCatalog env (pre ++ [{ e with RemovedInVersion := r }] ++ post)) m mapFile
            kubeConfig
          = ReplaceManifestUnSupportedAPIs (withCatalog env (pre ++ [e] ++ post)) m mapFile
              kubeConfig) ∧
    (e.DeprecatedInVersion = [] →
      apiVersionStr e = e.RemovedInVersion ∧
      ReplaceManifestUnSupportedAPIs
          (withCatalog env
            (pre ++ [{ e with DeprecatedInVersion := e.RemovedInVersion }] ++ post)) m mapFile
          kubeConfig
        = ReplaceManifestUnSupportedAPIs (withCatalog env (pre ++ [e] ++ post)) m mapFile
            kubeConfig) ∧
    ReplaceManifestUnSupportedAPIs
        (fixedEnv [⟨str "extensions/v1beta1", str "networking.k8s.io/v1", [], str "1.22"⟩]
          (str "1") (str "23"))
        (str "kind: Ingress\napiVersion: extensions/v1beta1") [] noConfig
      = (str "kind: Ingress\napiVersion: networking.k8s.io/v1", none) := by
  refine ⟨?_, ?_, by decide⟩
  · intro h
    refine ⟨by simp [apiVersionStr, h], fun r => ?_⟩
    exact run_congr_entry env m mapFile kubeConfig pre post rfl rfl (by simp [apiVersionStr, h])
  · intro h
    refine ⟨by simp [apiVersionStr, h], ?_⟩
    refine run_congr_entry env m mapFile kubeConfig pre post rfl rfl ?_
    by_cases hr : e.RemovedInVersion = [] <;> simp [apiVersionStr, h, hr]

/-- An entry deprecated in 1.16 and removed in 1.22 is gated by 1.16: on
cluster 1.18 it is applied, and so is the same entry with any other removal
version, such as 1.30. -/
theorem effective_version_resolution_witness :
    ReplaceManifestUnSupportedAPIs
        (withCatalog (fixedEnv [] (str "1") (str "18"))
          ([] ++ [{ (⟨str "v1beta1", str "v1", str "1.16", str "1.22"⟩ : mapping.Mapping) with
              RemovedInVersion := str "1.30" }] ++ []))
        (str "apiVersion: v1beta1") [] noConfig
      = ReplaceManifestUnSupportedAPIs
          (withCatalog (fixedEnv [] (str "1") (str "18"))
            ([] ++ [⟨str "v1beta1", str "v1", str "1.16", str "1.22"⟩] ++ []))
          (str "apiVersion: v1beta1") [] noConfig ∧
    ReplaceManifestUnSupportedAPIs
        (withCatalog (fixedEnv [] (str "1") (str "18"))
          ([] ++ [⟨str "v1beta1", str "v1", str "1.16", str "1.22"⟩] ++ []))
        (str "apiVersion: v1beta1") [] noConfig = (str "apiVersion: v1", none) :=
  ⟨((effective_version_resolution (fixedEnv [] (str "1") (str "18"))
      (str "apiVersion: v1beta1") [] noConfig [] []
      ⟨str "v1beta1", str "v1", str "1.16", str "1.22"⟩).1 (by decide)).2 (str "1.30"),
   by decide⟩

/-! ## Order of the catalog -/

/-- C7: for two entries `A` and `B` that are both valid on the cluster, the
result for the catalog `[A, B]` is the replacement for `A` followed by the
replacement for `B` on its result, so that text brought in by `A` is rewritten
by `B` when it holds `B.DeprecatedAPI`; and there are a manifest and two such
entries for which the catalogs `[A, B]` and `[B, A]` give different results. -/
theorem catalog_order_is_application_order :
    (∀ (env : Collaborators) (m mapFile : GoString) (kubeConfig : KubeConfig)
        (A B : mapping.Mapping) (v : GoString),
      env.LoadMapfile mapFile = .ok ⟨[A, B]⟩ →
      getKubernetesServerVersion env kubeConfig = (v, none) →
      notYetValid v A = false → notYetValid v B = false →
      ReplaceManifestUnSupportedAPIs env m mapFile kubeConfig
        = (strings.ReplaceAll (strings.ReplaceAll m A.DeprecatedAPI A.NewAPI)
            B.DeprecatedAPI B.NewAPI, none)) ∧
    (∃ (m : GoString) (A B : mapping.Mapping),
      notYetValid (str "1.22") A = false ∧ notYetValid (str "1.22") B = false ∧
      A.NewAPI = B.DeprecatedAPI ∧
      ReplaceManifestUnSupportedAPIs (fixedEnv [A, B] (str "1") (str "22")) m [] noConfig
        ≠ ReplaceManifestUnSupportedAPIs (fixedEnv [B, A] (str "1") (str "22")) m [] noConfig) := by
  constructor
  · intro env m mapFile kubeConfig A B v hload hver hA hB
    rw [run_ok m hload hver]
    unfold notYetValid at hA hB
    simp [mapOne_eq, hA, hB]
  · exact ⟨str "apiVersion: v1alpha1",
      ⟨str "v1alpha1", str "v1beta1", str "1.16", []⟩,
      ⟨str "v1beta1", str "v1", str "1.22", []⟩, by decide, by decide, by decide, by decide⟩

/-- On cluster 1.22 the catalog `v1alpha1` to `v1beta1`, then `v1beta1` to
`v1`, takes `v1alpha1` all the way to `v1`. -/
theorem catalog_order_is_application_order_witness :
    ReplaceManifestUnSupportedAPIs
        (fixedEnv [⟨str "v1alpha1", str "v1beta1", str "1.16", []⟩,
          ⟨str "v1beta1", str "v1", str "1.22", []⟩] (str "1") (str "22"))
        (str "apiVersion: v1alpha1") [] noConfig
      = (strings.ReplaceAll
          (strings.ReplaceAll (str "apiVersion: v1alpha1") (str "v1alpha1") (str "v1beta1"))
          (str "v1beta1") (str "v1"), none) ∧
    strings.ReplaceAll
        (strings.ReplaceAll (str "apiVersion: v1alpha1") (str "v1alpha1") (str "v1beta1"))
        (str "v1beta1") (str "v1") = str "apiVersion: v1" :=
  ⟨catalog_order_is_application_order.1
      (fixedEnv [⟨str "v1alpha1", str "v1beta1", str "1.16", []⟩,
        ⟨str "v1beta1", str "v1", str "1.22", []⟩] (str "1") (str "22"))
      (str "apiVersion: v1alpha1") [] noConfig
      ⟨str "v1alpha1", str "v1beta1", str "1.16", []⟩ ⟨str "v1beta1", str "v1", str "1.22", []⟩
      (str "1.22") rfl (by decide) (by decide) (by decide),
   by decide⟩

/-! ## The substitution -/

/-- C6: with a catalog of one entry that is valid on the cluster and has a
non-empty `DeprecatedAPI` `d`, the manifest has a split into pieces at the
instances of `d` taken leftmost first and without overlap, and the result is
the pieces of any such split joined with `NewAPI`: every such instance is
replaced in one pass, bytes are compared as they are. -/
theorem global_literal_substitution (env : Collaborators) (m mapFile : GoString)
    (kubeConfig : KubeConfig) (e : mapping.Mapping) (v : GoString)
    (hload : env.LoadMapfile mapFile = .ok ⟨[e]⟩)
    (hver : getKubernetesServerVersion env kubeConfig = (v, none))
    (hd : e.DeprecatedAPI ≠ [])
    (hvalid : notYetValid v e = false) :
    (∃ pieces, LeftmostSplit e.DeprecatedAPI m pieces) ∧
    ∀ pieces, LeftmostSplit e.DeprecatedAPI m pieces →
      ReplaceManifestUnSupportedAPIs env m mapFile kubeConfig
        = (List.intercalate e.NewAPI pieces, none) := by
  refine ⟨strings.LeftmostSplit_exists hd m.length m (Nat.le_refl _), fun pieces hp => ?_⟩
  rw [run_ok m hload hver]
  unfold notYetValid at hvalid
  simp [mapOne_eq, hvalid, strings.ReplaceAll_of_split hd e.NewAPI hp]

/-- The manifest `aaa` with the entry `aa` to `b` gives `ba`; a manifest that
holds `v1beta1` twice has both replaced, also inside other text; `V1beta1`
differs in letter case and is left alone. -/
theorem global_literal_substitution_witness :
    ReplaceManifestUnSupportedAPIs (fixedEnv [⟨str "aa", str "b", str "1.16", []⟩] (str "1") (str "22"))
        (str "aaa") [] noConfig
      = (List.intercalate (str "b") [[], str "a"], none) ∧
    List.intercalate (str "b") [[], str "a"] = str "ba" ∧
    ReplaceManifestUnSupportedAPIs
        (fixedEnv [⟨str "v1beta1", str "v1", str "1.16", []⟩] (str "1") (str "22"))
        (str "a/v1beta1,V1beta1,xv1beta1y") [] noConfig
      = (List.intercalate (str "v1") [str "a/", str ",V1beta1,x", str "y"], none) ∧
    List.intercalate (str "v1") [str "a/", str ",V1beta1,x", str "y"]
      = str "a/v1,V1beta1,xv1y" :=
  ⟨(global_literal_substitution
      (fixedEnv [⟨str "aa", str "b", str "1.16", []⟩] (str "1") (str "22"))
      (str "aaa") [] noConfig ⟨str "aa", str "b", str "1.16", []⟩ (str "1.22")
      rfl (by decide) (by decide) (by decide)).2 [[], str "a"]
      (LeftmostSplit.cons [] (str "a") [str "a"] (by simp)
        (LeftmostSplit.last (str "a") (by decide))),
   by decide,
   (global_literal_substitution
      (fixedEnv [⟨str "v1beta1", str "v1", str "1.16", []⟩] (str "1") (str "22"))
      (str "a/v1beta1,V1beta1,xv1beta1y") [] noConfig ⟨str "v1beta1", str "v1", str "1.16", []⟩
      (str "1.22") rfl (by decide) (by decide) (by decide)).2
      [str "a/", str ",V1beta1,x", str "y"]
      (LeftmostSplit.cons (str "a/") (str ",V1beta1,xv1beta1y") [str ",V1beta1,x", str "y"]
        (by decide)
        (LeftmostSplit.cons (str ",V1beta1,x") (str "y") [str "y"] (by decide)
          (LeftmostSplit.last (str "y") (by decide)))),
   by decide⟩

/-! ## Idempotence -/

/-- C8, as stated, fails: in the catalog of the one entry `k8s.io/v1` to
`networking.k8s.io/v1` no `NewAPI` is the `DeprecatedAPI` of an entry, and
rewriting the result again changes it, since the `NewAPI` holds the
`DeprecatedAPI`. -/
theorem idempotence_counterexample :
    (∀ e1 ∈ [(⟨str "k8s.io/v1", str "networking.k8s.io/v1", str "1.16", []⟩ : mapping.Mapping)],
      ∀ e2 ∈ [(⟨str "k8s.io/v1", str "networking.k8s.io/v1", str "1.16", []⟩ : mapping.Mapping)],
        e1.NewAPI ≠ e2.DeprecatedAPI) ∧
    ReplaceManifestUnSupportedAPIs
        (fixedEnv [⟨str "k8s.io/v1", str "networking.k8s.io/v1", str "1.16", []⟩] (str "1") (str "22"))
        (str "apiVersion: k8s.io/v1") [] noConfig
      = (str "apiVersion: networking.k8s.io/v1", none) ∧
    ReplaceManifestUnSupportedAPIs
        (fixedEnv [⟨str "k8s.io/v1", str "networking.k8s.io/v1", str "1.16", []⟩] (str "1") (str "22"))
        (str "apiVersion: networking.k8s.io/v1") [] noConfig
      = (str "apiVersion: networking.networking.k8s.io/v1", none) ∧
    ReplaceManifestUnSupportedAPIs
        (fixedEnv [⟨str "k8s.io/v1", str "networking.k8s.io/v1", str "1.16", []⟩] (str "1") (str "22"))
        (ReplaceManifestUnSupportedAPIs
          (fixedEnv [⟨str "k8s.io/v1", str "networking.k8s.io/v1", str "1.16", []⟩]
            (str "1") (str "22"))
          (str "apiVersion: k8s.io/v1") [] noConfig).1 [] noConfig
      ≠ ReplaceManifestUnSupportedAPIs
          (fixedEnv [⟨str "k8s.io/v1", str "networking.k8s.io/v1", str "1.16", []⟩]
            (str "1") (str "22"))
          (str "apiVersion: k8s.io/v1") [] noConfig := by
  decide

/-- C8, amended: when no two entries that are valid on the cluster overlap,
the `NewAPI` of one with the `DeprecatedAPI` of the other or with its own
(none of these strings is empty, none has an instance in the other, and no
non-empty end of one is a beginning of the other), then rewriting the
rewritten manifest with the same catalog and version returns it unchanged. -/
theorem idempotent_without_overlap (env : Collaborators) (m mapFile : GoString)
    (kubeConfig : KubeConfig) (cat : List mapping.Mapping) (v : GoString)
    (hload : env.LoadMapfile mapFile = .ok ⟨cat⟩)
    (hver : getKubernetesServerVersion env kubeConfig = (v, none))
    (hcat : ∀ A, A ∈ cat → ∀ B, B ∈ cat → notYetValid v A = false → notYetValid v B = false →
      ¬ Overlap B.DeprecatedAPI A.NewAPI) :
    ReplaceManifestUnSupportedAPIs env
        (ReplaceManifestUnSupportedAPIs env m mapFile kubeConfig).1 mapFile kubeConfig
      = ReplaceManifestUnSupportedAPIs env m mapFile kubeConfig := by
  have hvalid : ∀ A, A ∈ cat.filter (fun e => !notYetValid v e) →
      ∀ B, B ∈ cat.filter (fun e => !notYetValid v e) →
      ¬ Overlap B.DeprecatedAPI A.NewAPI := by
    intro A hA B hB
    rw [List.mem_filter] at hA hB
    exact hcat A hA.1 B hB.1 (by simpa using hA.2) (by simpa using hB.2)
  rw [run_ok m hload hver]
  rw [run_ok _ hload hver]
  simp only
  rw [foldl_mapOne_fixed]
  intro e he
  rw [mapOne_eq]
  by_cases hg : notYetValid v e = true
  · have hg2 : (strconv.ParseFloat32 (apiVersionStr e)).1.gt (strconv.ParseFloat32 v).1 = true := hg
    rw [if_pos hg2]
  · have hg2 : ¬ (strconv.ParseFloat32 (apiVersionStr e)).1.gt (strconv.ParseFloat32 v).1 = true :=
      hg
    rw [if_neg hg2]
    have hmem : e ∈ cat.filter (fun e => !notYetValid v e) := by
      rw [List.mem_filter]
      exact ⟨he, by simpa using hg⟩
    have hno := no_instance_after_foldl _ hvalid m e hmem
    rw [foldl_mapOne_eq_foldValidEntries]
    exact strings.ReplaceAll_of_no_instance (ne_nil_of_not_Overlap (hvalid e hmem e hmem)).1 _ hno

/-- On cluster 1.22 the entries for the Deployment of `extensions/v1beta1`
and the CronJob of `batch/v1beta1` do not overlap, the entry of 1.25 is not
valid yet, and a second pass returns the rewritten manifest as it is. -/
theorem idempotent_without_overlap_witness :
    ReplaceManifestUnSupportedAPIs
        (fixedEnv [⟨str "apiVersion: extensions/v1beta1\nkind: Deployment",
            str "apiVersion: apps/v1\nkind: Deployment", str "1.16", []⟩,
          ⟨str "apiVersion: batch/v1beta1\nkind: CronJob",
            str "apiVersion: batch/v1\nkind: CronJob", [], str "1.21"⟩,
          ⟨str "v1", str "v1v1", str "1.25", []⟩] (str "1") (str "22"))
        (ReplaceManifestUnSupportedAPIs
          (fixedEnv [⟨str "apiVersion: extensions/v1beta1\nkind: Deployment",
            str "apiVersion: apps/v1\nkind: Deployment", str "1.16", []⟩,
          ⟨str "apiVersion: batch/v1beta1\nkind: CronJob",
            str "apiVersion: batch/v1\nkind: CronJob", [], str "1.21"⟩,
          ⟨str "v1", str "v1v1", str "1.25", []⟩] (str "1") (str "22"))
          (str "apiVersion: batch/v1beta1\nkind: CronJob\n---\napiVersion: extensions/v1beta1\nkind: Deployment") [] noConfig).1
        [] noConfig
      = ReplaceManifestUnSupportedAPIs
          (fixedEnv [⟨str "apiVersion: extensions/v1beta1\nkind: Deployment",
            str "apiVersion: apps/v1\nkind: Deployment", str "1.16", []⟩,
          ⟨str "apiVersion: batch/v1beta1\nkind: CronJob",
            str "apiVersion: batch/v1\nkind: CronJob", [], str "1.21"⟩,
          ⟨str "v1", str "v1v1", str "1.25", []⟩] (str "1") (str "22"))
          (str "apiVersion: batch/v1beta1\nkind: CronJob\n---\napiVersion: extensions/v1beta1\nkind: Deployment") [] noConfig ∧
    ReplaceManifestUnSupportedAPIs
        (fixedEnv [⟨str "apiVersion: extensions/v1beta1\nkind: Deployment",
            str "apiVersion: apps/v1\nkind: Deployment", str "1.16", []⟩,
          ⟨str "apiVersion: batch/v1beta1\nkind: CronJob",
            str "apiVersion: batch/v1\nkind: CronJob", [], str "1.21"⟩,
          ⟨str "v1", str "v1v1", str "1.25", []⟩] (str "1") (str "22"))
        (str "apiVersion: batch/v1beta1\nkind: CronJob\n---\napiVersion: extensions/v1beta1\nkind: Deployment") [] noConfig
      = (str "apiVersion: batch/v1\nkind: CronJob\n---\napiVersion: apps/v1\nkind: Deployment", none) :=
  ⟨idempotent_without_overlap
      (fixedEnv [⟨str "apiVersion: extensions/v1beta1\nkind: Deployment",
            str "apiVersion: apps/v1\nkind: Deployment", str "1.16", []⟩,
          ⟨str "apiVersion: batch/v1beta1\nkind: CronJob",
            str "apiVersion: batch/v1\nkind: CronJob", [], str "1.21"⟩,
          ⟨str "v1", str "v1v1", str "1.25", []⟩] (str "1") (str "22"))
      (str "apiVersion: batch/v1beta1\nkind: CronJob\n---\napiVersion: extensions/v1beta1\nkind: Deployment") [] noConfig _
      (str "1.22") rfl (by decide) (by decide),
   by decide⟩

/-! ## Locality of the change -/

/-- C9, as stated, fails: with the catalog `alpha` to `beta`, `beta` to `v1`
on cluster 1.22 the manifest `alpha` becomes `v1`, which is not a local edit
of `alpha`: the range `alpha` is not replaced by the `NewAPI` of its own
entry, `beta`. -/
theorem change_locality_counterexample :
    ReplaceManifestUnSupportedAPIs
        (fixedEnv [⟨str "alpha", str "beta", str "1.16", []⟩,
          ⟨str "beta", str "v1", str "1.22", []⟩] (str "1") (str "22"))
        (str "alpha") [] noConfig = (str "v1", none) ∧
    ¬ LocalEdit [⟨str "alpha", str "beta", str "1.16", []⟩,
        ⟨str "beta", str "v1", str "1.22", []⟩] (str "alpha") (str "v1") := by
  refine ⟨by decide, fun h => ?_⟩
  rcases LocalEdit_cases h with ⟨h1, _⟩ | ⟨c, s2, out2, h1, h2⟩ | ⟨e, he, h1, h2⟩
  · exact absurd h1 (by decide)
  · have h3 : (str "alpha").head? = (str "v1").head? := by rw [h1, h2]; rfl
    exact absurd h3 (by decide)
  · simp only [List.mem_cons, List.mem_singleton, List.not_mem_nil, or_false] at he
    rcases he with rfl | rfl
    · exact absurd h2 (by decide)
    · exact absurd h1 (by decide)

/-- C9, amended: the returned manifest comes from the input by a chain of
steps, one for each entry in the order of the catalog, each of which changes
the manifest left by the step before it only at ranges equal to the
`DeprecatedAPI` of its own entry, replaced by the `NewAPI` of that entry; for a
catalog of one entry the returned manifest is such a local edit of the
input. -/
theorem change_locality_per_entry (env : Collaborators) (m mapFile : GoString)
    (kubeConfig : KubeConfig) (cat : List mapping.Mapping) (v : GoString)
    (hload : env.LoadMapfile mapFile = .ok ⟨cat⟩)
    (hver : getKubernetesServerVersion env kubeConfig = (v, none)) :
    ∃ out, ReplaceManifestUnSupportedAPIs env m mapFile kubeConfig = (out, none) ∧
      EditChain cat m out ∧ (∀ e, cat = [e] → LocalEdit cat m out) := by
  refine ⟨_, run_ok m hload hver, EditChain_foldl _ cat m, ?_⟩
  intro e he
  subst he
  exact LocalEdit_mapOne _ m e

/-- The chain for the catalog `alpha` to `beta`, `beta` to `v1` on cluster
1.22 and the manifest `alpha`. -/
theorem change_locality_per_entry_witness :
    ∃ out, ReplaceManifestUnSupportedAPIs
        (fixedEnv [⟨str "alpha", str "beta", str "1.16", []⟩,
          ⟨str "beta", str "v1", str "1.22", []⟩] (str "1") (str "22"))
        (str "alpha") [] noConfig = (out, none) ∧
      EditChain [⟨str "alpha", str "beta", str "1.16", []⟩,
        ⟨str "beta", str "v1", str "1.22", []⟩] (str "alpha") out ∧
      (∀ e, [(⟨str "alpha", str "beta", str "1.16", []⟩ : mapping.Mapping),
        ⟨str "beta", str "v1", str "1.22", []⟩] = [e] →
        LocalEdit [⟨str "alpha", str "beta", str "1.16", []⟩,
          ⟨str "beta", str "v1", str "1.22", []⟩] (str "alpha") out) :=
  change_locality_per_entry
    (fixedEnv [⟨str "alpha", str "beta", str "1.16", []⟩,
      ⟨str "beta", str "v1", str "1.22", []⟩] (str "1") (str "22"))
    (str "alpha") [] noConfig _ (str "1.22") rfl (by decide)

/-! ## The empty manifest -/

/-- C10, as stated, fails: an entry with an empty `DeprecatedAPI` that is
valid on the cluster turns the empty manifest into its `NewAPI`. -/
theorem empty_manifest_counterexample :
    ReplaceManifestUnSupportedAPIs
        (fixedEnv [⟨[], str "apiVersion: v1", str "1.16", []⟩] (str "1") (str "22"))
        [] [] noConfig = (str "apiVersion: v1", none) ∧
    ReplaceManifestUnSupportedAPIs
        (fixedEnv [⟨[], str "apiVersion: v1", str "1.16", []⟩] (str "1") (str "22"))
        [] [] noConfig ≠ ([], none) := by
  decide

/-- C10, amended: for every cluster version and every catalog in which each
entry has a non-empty `DeprecatedAPI`, or an empty `NewAPI`, or is not valid
yet on the cluster, the empty manifest is returned as the empty manifest. -/
theorem empty_manifest_unchanged (env : Collaborators) (mapFile : GoString)
    (kubeConfig : KubeConfig) (cat : List mapping.Mapping) (v : GoString)
    (hload : env.LoadMapfile mapFile = .ok ⟨cat⟩)
    (hver : getKubernetesServerVersion env kubeConfig = (v, none))
    (hcat : ∀ e, e ∈ cat →
      e.DeprecatedAPI ≠ [] ∨ e.NewAPI = [] ∨ notYetValid v e = true) :
    ReplaceManifestUnSupportedAPIs env [] mapFile kubeConfig = ([], none) := by
  rw [run_ok [] hload hver]
  simp only
  rw [foldl_mapOne_fixed]
  intro e he
  rw [mapOne_eq]
  split
  · rfl
  · rename_i hgt
    rcases hcat e he with hd | hn | hv
    · exact strings.ReplaceAll_nil hd _
    · by_cases hd : e.DeprecatedAPI = []
      · rw [hd, hn]
        exact strings.ReplaceAll_same [] []
      · exact strings.ReplaceAll_nil hd _
    · unfold notYetValid at hv
      exact absurd hv hgt

/-- The empty manifest stays empty under a catalog of two entries with
different versions, one of them without a parseable version. -/
theorem empty_manifest_unchanged_witness :
    ReplaceManifestUnSupportedAPIs
        (fixedEnv [⟨str "v1beta1", str "v1", str "1.16", []⟩,
          ⟨str "v1alpha1", str "v1", [], str "soon"⟩] (str "1") (str "22"))
        [] [] noConfig = ([], none) :=
  empty_manifest_unchanged
    (fixedEnv [⟨str "v1beta1", str "v1", str "1.16", []⟩,
      ⟨str "v1alpha1", str "v1", [], str "soon"⟩] (str "1") (str "22"))
    [] noConfig _ (str "1.22") rfl (by decide) (by decide)

/-! ## The empty catalog, and manifests without a match -/

/-- C11: with an empty catalog loaded and the server version obtained, the
manifest is returned as it is, with no error, whatever the cluster version. -/
theorem empty_catalog_unchanged (env : Collaborators) (m mapFile : GoString)
    (kubeConfig : KubeConfig) (v : GoString)
    (hload : env.LoadMapfile mapFile = .ok ⟨[]⟩)
    (hver : getKubernetesServerVersion env kubeConfig = (v, none)) :
    ReplaceManifestUnSupportedAPIs env m mapFile kubeConfig = (m, none) := by
  rw [run_ok m hload hver]
  rfl

/-- The Ingress manifest under an empty catalog on cluster 1.23. -/
theorem empty_catalog_unchanged_witness :
    ReplaceManifestUnSupportedAPIs (fixedEnv [] (str "1") (str "23"))
        (str "kind: Ingress\napiVersion: extensions/v1beta1") [] noConfig
      = (str "kind: Ingress\napiVersion: extensions/v1beta1", none) :=
  empty_catalog_unchanged (fixedEnv [] (str "1") (str "23"))
    (str "kind: Ingress\napiVersion: extensions/v1beta1") [] noConfig (str "1.23") rfl (by decide)

/-- C13: when every entry of the catalog has a non-empty `DeprecatedAPI` that
has no instance in the manifest, the manifest is returned unchanged, whatever
the version fields of the entries and the cluster version. -/
theorem no_match_no_change (env : Collaborators) (m mapFile : GoString)
    (kubeConfig : KubeConfig) (cat : List mapping.Mapping) (v : GoString)
    (hload : env.LoadMapfile mapFile = .ok ⟨cat⟩)
    (hver : getKubernetesServerVersion env kubeConfig = (v, none))
    (hcat : ∀ e, e ∈ cat → e.DeprecatedAPI ≠ [] ∧ ¬ e.DeprecatedAPI <:+: m) :
    ReplaceManifestUnSupportedAPIs env m mapFile kubeConfig = (m, none) := by
  rw [run_ok m hload hver]
  simp only
  rw [foldl_mapOne_fixed]
  intro e he
  rw [mapOne_eq, strings.ReplaceAll_of_no_instance (hcat e he).1 _ (hcat e he).2]
  simp

/-- The manifest `apiVersion: v1` holds neither `v1beta1` nor `v1alpha1`, and
is returned as it is on cluster 1.22 by entries of versions 1.16, 1.30 and
one that does not parse. -/
theorem no_match_no_change_witness :
    ReplaceManifestUnSupportedAPIs
        (fixedEnv [⟨str "v1beta1", str "v2", str "1.16", []⟩,
          ⟨str "v1alpha1", str "v2", [], str "1.30"⟩,
          ⟨str "v1beta2", str "v2", str "soon", []⟩] (str "1") (str "22"))
        (str "apiVersion: v1") [] noConfig = (str "apiVersion: v1", none) :=
  no_match_no_change
    (fixedEnv [⟨str "v1beta1", str "v2", str "1.16", []⟩,
      ⟨str "v1alpha1", str "v2", [], str "1.30"⟩,
      ⟨str "v1beta2", str "v2", str "soon", []⟩] (str "1") (str "22"))
    (str "apiVersion: v1") [] noConfig _ (str "1.22") rfl (by decide) (by decide)

/-! ## The loop as a fold -/

/-- C14: rewriting with the catalog `c1 ++ c2` returns what rewriting with
`c1` and then rewriting its manifest with `c2` returns, on the same cluster:
the manifest is the only state an entry hands to the next. -/
theorem sequential_composition (env : Collaborators) (m mapFile : GoString)
    (kubeConfig : KubeConfig) (c1 c2 : List mapping.Mapping) :
    ReplaceManifestUnSupportedAPIs (withCatalog env (c1 ++ c2)) m mapFile kubeConfig
      = ReplaceManifestUnSupportedAPIs (withCatalog env c2)
          (ReplaceManifestUnSupportedAPIs (withCatalog env c1) m mapFile kubeConfig).1
          mapFile kubeConfig := by
  simp only [run_withCatalog]
  rcases hg : getKubernetesServerVersion env kubeConfig with ⟨v, _ | err⟩
  · simp [List.foldl_append]
  · simp

/-- C15: the returned manifest is the left fold of the substitution over
exactly the entries whose effective-version number is not strictly greater
than the number of the cluster, in the order of the catalog: the test whether
the manifest changed adds nothing, and which entries are dropped does not
depend on the manifest. -/
theorem loop_is_fold_over_valid_entries (env : Collaborators) (m mapFile : GoString)
    (kubeConfig : KubeConfig) (cat : List mapping.Mapping) (v : GoString)
    (hload : env.LoadMapfile mapFile = .ok ⟨cat⟩)
    (hver : getKubernetesServerVersion env kubeConfig = (v, none)) :
    ReplaceManifestUnSupportedAPIs env m mapFile kubeConfig
      = (foldValidEntries v cat m, none) := by
  rw [run_ok m hload hver]
  simp only
  rw [foldl_mapOne_eq_foldValidEntries]

/-- On cluster 1.22 the entry of 1.25 is dropped and the entries of 1.16 and
1.22 are substituted one after the other. -/
theorem loop_is_fold_over_valid_entries_witness :
    ReplaceManifestUnSupportedAPIs
        (fixedEnv [⟨str "v1alpha1", str "v1beta1", str "1.16", []⟩,
          ⟨str "Ingress", str "Route", str "1.25", []⟩,
          ⟨str "v1beta1", str "v1", str "1.22", []⟩] (str "1") (str "22"))
        (str "kind: Ingress\napiVersion: v1alpha1") [] noConfig
      = (foldValidEntries (str "1.22")
          [⟨str "v1alpha1", str "v1beta1", str "1.16", []⟩,
            ⟨str "Ingress", str "Route", str "1.25", []⟩,
            ⟨str "v1beta1", str "v1", str "1.22", []⟩]
          (str "kind: Ingress\napiVersion: v1alpha1"), none) ∧
    foldValidEntries (str "1.22")
        [⟨str "v1alpha1", str "v1beta1", str "1.16", []⟩,
          ⟨str "Ingress", str "Route", str "1.25", []⟩,
          ⟨str "v1beta1", str "v1", str "1.22", []⟩]
        (str "kind: Ingress\napiVersion: v1alpha1")
      = str "kind: Ingress\napiVersion: v1" :=
  ⟨loop_is_fold_over_valid_entries
      (fixedEnv [⟨str "v1alpha1", str "v1beta1", str "1.16", []⟩,
        ⟨str "Ingress", str "Route", str "1.25", []⟩,
        ⟨str "v1beta1", str "v1", str "1.22", []⟩] (str "1") (str "22"))
      (str "kind: Ingress\napiVersion: v1alpha1") [] noConfig _ (str "1.22") rfl (by decide),
   by decide⟩

/-! ## A cluster version that does not parse -/

/-- C16: when the cluster version string is not well-formed for `ParseFloat`,
the version is taken as 0 and no error is returned; every catalog whose entries
all have an effective version that parses to a number greater than 0 then
leaves the manifest unchanged. -/
theorem unparseable_cluster_version_is_zero (env : Collaborators) (m mapFile : GoString)
    (kubeConfig : KubeConfig) (cat : List mapping.Mapping) (v : GoString)
    (hload : env.LoadMapfile mapFile = .ok ⟨cat⟩)
    (hver : getKubernetesServerVersion env kubeConfig = (v, none))
    (hsyn : (strconv.ParseFloat32 v).2 = some .ErrSyntax) :
    (strconv.ParseFloat32 v).1 = .fin 0 ∧
    (ReplaceManifestUnSupportedAPIs env m mapFile kubeConfig).2 = none ∧
    ((∀ e, e ∈ cat → (strconv.ParseFloat32 (apiVersionStr e)).1.gt (.fin 0) = true) →
      ReplaceManifestUnSupportedAPIs env m mapFile kubeConfig = (m, none)) := by
  have hzero := ParseFloat32_syntax_zero hsyn
  refine ⟨hzero, by rw [run_ok m hload hver], fun hcat => ?_⟩
  rw [run_ok m hload hver]
  simp only
  rw [foldl_mapOne_fixed]
  intro e he
  rw [mapOne_eq, hzero, hcat e he]
  simp

/-- A cluster that reports minor version `22+` leaves `v1beta1` in place,
though the entries are of 1.16 and 1.22. -/
theorem unparseable_cluster_version_is_zero_witness :
    strconv.ParseFloat32 (str "1.22+") = (.fin 0, some .ErrSyntax) ∧
    ReplaceManifestUnSupportedAPIs
        (fixedEnv [⟨str "v1beta1", str "v1", str "1.16", []⟩,
          ⟨str "Ingress", str "Route", [], str "1.22"⟩] (str "1") (str "22+"))
        (str "kind: Ingress\napiVersion: v1beta1") [] noConfig
      = (str "kind: Ingress\napiVersion: v1beta1", none) :=
  ⟨by decide,
   (unparseable_cluster_version_is_zero
      (fixedEnv [⟨str "v1beta1", str "v1", str "1.16", []⟩,
        ⟨str "Ingress", str "Route", [], str "1.22"⟩] (str "1") (str "22+"))
      (str "kind: Ingress\napiVersion: v1beta1") [] noConfig _ (str "1.22+") rfl (by decide)
      (by decide)).2.2 (by decide)⟩

/-! ## The order of the versions -/

/-- C12, as stated, fails: the decimal value of the effective version
`1.00000001` is strictly greater than that of the cluster version `1.0`, yet
the entry is not skipped: both strings round to the float32 number 1, and the
substitution is applied. -/
theorem decimal_version_order_counterexample :
    (∃ a b, strconv.readFloat (apiVersionStr ⟨str "v1beta1", str "v1", str "1.00000001", []⟩)
        = some a ∧
      strconv.readFloat (str "1.0") = some b ∧ b.value < a.value) ∧
    strconv.ParseFloat32 (str "1.00000001") = strconv.ParseFloat32 (str "1.0") ∧
    ReplaceManifestUnSupportedAPIs
        (fixedEnv [⟨str "v1beta1", str "v1", str "1.00000001", []⟩] (str "1") (str "0"))
        (str "apiVersion: v1beta1") [] noConfig
      = (str "apiVersion: v1", none) := by
  refine ⟨⟨⟨false, 100000001, 100000000⟩, ⟨false, 10, 10⟩, by decide, by decide, ?_⟩,
    by decide, by decide⟩
  simp only [strconv.Exact.value]
  norm_num

/-- C12, amended: an entry whose `DeprecatedAPI` has an instance in the
manifest is skipped exactly when the float32 number that `ParseFloat` returns
for its effective version string is strictly greater than the one for the
version string of the cluster. For strings that are literals these numbers are
the float32 numbers nearest to the decimal values, and an entry is skipped
only when the decimal value of its effective version is strictly greater than
that of the cluster version. The order is that of decimal numbers, not of
pairs of major and minor: an entry effective in `1.9` is skipped on the
clusters `1.10` and `1.22`, and an entry effective in `1.20` is applied on the
cluster `1.2`. -/
theorem version_order_is_float32_order (env : Collaborators) (m mapFile : GoString)
    (kubeConfig : KubeConfig) (e : mapping.Mapping) (v : GoString)
    (hload : env.LoadMapfile mapFile = .ok ⟨[e]⟩)
    (hver : getKubernetesServerVersion env kubeConfig = (v, none))
    (hmatch : strings.ReplaceAll m e.DeprecatedAPI e.NewAPI ≠ m) :
    (ReplaceManifestUnSupportedAPIs env m mapFile kubeConfig = (m, none) ↔
      (strconv.ParseFloat32 (apiVersionStr e)).1.gt (strconv.ParseFloat32 v).1 = true) ∧
    (∀ a b, strconv.readFloat (apiVersionStr e) = some a → strconv.readFloat v = some b →
      (strconv.ParseFloat32 (apiVersionStr e)).1 = a.toFloat32 ∧
      (strconv.ParseFloat32 v).1 = b.toFloat32 ∧
      (ReplaceManifestUnSupportedAPIs env m mapFile kubeConfig = (m, none) →
        b.value < a.value)) ∧
    (apiVersionStr e = str "1.9" → v = str "1.10" ∨ v = str "1.22" →
      ReplaceManifestUnSupportedAPIs env m mapFile kubeConfig = (m, none)) ∧
    (apiVersionStr e = str "1.20" → v = str "1.2" →
      ReplaceManifestUnSupportedAPIs env m mapFile kubeConfig
        = (strings.ReplaceAll m e.DeprecatedAPI e.NewAPI, none)) := by
  have hrun : ReplaceManifestUnSupportedAPIs env m mapFile kubeConfig
      = (if (strconv.ParseFloat32 (apiVersionStr e)).1.gt (strconv.ParseFloat32 v).1 then m
          else strings.ReplaceAll m e.DeprecatedAPI e.NewAPI, none) := by
    rw [run_ok m hload hver]
    simp [mapOne_eq]
  have hiff : ReplaceManifestUnSupportedAPIs env m mapFile kubeConfig = (m, none) ↔
      (strconv.ParseFloat32 (apiVersionStr e)).1.gt (strconv.ParseFloat32 v).1 = true := by
    rw [hrun]
    by_cases hg : (strconv.ParseFloat32 (apiVersionStr e)).1.gt (strconv.ParseFloat32 v).1 = true
    · simp [hg]
    · simp [hg, hmatch]
  refine ⟨hiff, ?_, ?_, ?_⟩
  · intro a b ha hb
    refine ⟨strconv.ParseFloat32_of_readFloat ha, strconv.ParseFloat32_of_readFloat hb, ?_⟩
    intro hskip
    have hgt := hiff.mp hskip
    rw [strconv.ParseFloat32_of_readFloat ha, strconv.ParseFloat32_of_readFloat hb] at hgt
    by_contra hle
    have := strconv.toFloat32_gt_false (strconv.readFloat_den_pos ha)
      (strconv.readFloat_den_pos hb) (not_lt.mp hle)
    rw [this] at hgt
    exact absurd hgt (by simp)
  · intro he hv
    rw [hiff, he]
    rcases hv with rfl | rfl <;> decide
  · intro he hv
    rw [hrun, he, hv]
    have hg : (strconv.ParseFloat32 (str "1.20")).1.gt (strconv.ParseFloat32 (str "1.2")).1
        = false := by decide
    simp [hg]

/-- The entry `v1beta1` to `v1`, effective in 1.9, is skipped on the clusters
1.10 and 1.22; effective in 1.20 it is applied on the cluster 1.2. -/
theorem version_order_is_float32_order_witness :
    ReplaceManifestUnSupportedAPIs
        (fixedEnv [⟨str "v1beta1", str "v1", str "1.9", []⟩] (str "1") (str "10"))
        (str "apiVersion: v1beta1") [] noConfig = (str "apiVersion: v1beta1", none) ∧
    ReplaceManifestUnSupportedAPIs
        (fixedEnv [⟨str "v1beta1", str "v1", str "1.9", []⟩] (str "1") (str "22"))
        (str "apiVersion: v1beta1") [] noConfig = (str "apiVersion: v1beta1", none) ∧
    ReplaceManifestUnSupportedAPIs
        (fixedEnv [⟨str "v1beta1", str "v1", str "1.20", []⟩] (str "1") (str "2"))
        (str "apiVersion: v1beta1") [] noConfig
      = (strings.ReplaceAll (str "apiVersion: v1beta1") (str "v1beta1") (str "v1"), none) ∧
    strings.ReplaceAll (str "apiVersion: v1beta1") (str "v1beta1") (str "v1")
      = str "apiVersion: v1" :=
  ⟨(version_order_is_float32_order
      (fixedEnv [⟨str "v1beta1", str "v1", str "1.9", []⟩] (str "1") (str "10"))
      (str "apiVersion: v1beta1") [] noConfig ⟨str "v1beta1", str "v1", str "1.9", []⟩
      (str "1.10") rfl (by decide) (by decide)).2.2.1 (by decide) (.inl rfl),
   (version_order_is_float32_order
      (fixedEnv [⟨str "v1beta1", str "v1", str "1.9", []⟩] (str "1") (str "22"))
      (str "apiVersion: v1beta1") [] noConfig ⟨str "v1beta1", str "v1", str "1.9", []⟩
      (str "1.22") rfl (by decide) (by decide)).2.2.1 (by decide) (.inr rfl),
   (version_order_is_float32_order
      (fixedEnv [⟨str "v1beta1", str "v1", str "1.20", []⟩] (str "1") (str "2"))
      (str "apiVersion: v1beta1") [] noConfig ⟨str "v1beta1", str "v1", str "1.20", []⟩
      (str "1.2") rfl (by decide) (by decide)).2.2.2 (by decide) rfl,
   by decide⟩
